import Mathlib

/-!
Verification of the chapter-boundary resolution and content segmentation
pipeline of the EPUB chapter extractor (files `epub_chapter_extractor.py`
and `epub_chapter_extractor/epub_chapter_extractor.py`).

Text is modelled as `List Char`.  The Python `re` patterns used by the
program are compiled, pattern by pattern, into token lists for a small
backtracking matcher (`matchToks`) whose candidate order reproduces
Python's leftmost, greedy/lazy, left-alternative-first semantics.
The character classes `\d` and `\s` are modelled over the digit and
whitespace glyphs that actually occur in the program's alphabet
(ASCII digits plus the full-width digits appearing in the patterns, and
ASCII whitespace plus the ideographic space U+3000).
-/

namespace EpubSpec

/-- Model of Python's whitespace class `\s` (and of the default `str.strip`
character set): ASCII whitespace together with the ideographic space. -/
def pyWs (c : Char) : Bool :=
  c == ' ' || c == '\t' || c == '\n' || c == '\r' || c == '\x0b' || c == '\x0c' || c == '　'

def asciiDigit (c : Char) : Bool := '0' ≤ c && c ≤ '9'

/-- The full-width digit glyphs `１２３４５６７８９０`. -/
def fwDigit (c : Char) : Bool :=
  c == '１' || c == '２' || c == '３' || c == '４' || c == '５' ||
  c == '６' || c == '７' || c == '８' || c == '９' || c == '０'

/-- Model of Python's `\d` over the program's alphabet. -/
def pyDigit (c : Char) : Bool := asciiDigit c || fwDigit c

/-- ASCII lowering; the denylists and pattern literals only need ASCII case folding. -/
def lowerCh (c : Char) : Char :=
  if 'A' ≤ c && c ≤ 'Z' then Char.ofNat (c.toNat + 32) else c

def lowerL (l : List Char) : List Char := l.map lowerCh

/-- Length of the longest run of characters satisfying `p` at the head of `l`. -/
def leadRun (p : Char → Bool) : List Char → Nat
  | [] => 0
  | c :: l => if p c then leadRun p l + 1 else 0

/-- `[n, n-1, ..., 0]`: the candidate consumption counts of a greedy star. -/
def descN : Nat → List Nat
  | 0 => [0]
  | n + 1 => (n + 1) :: descN n

/-- Match a literal (case-insensitively when `ci`), returning the rest of the input. -/
def matchLit (ci : Bool) : List Char → List Char → Option (List Char)
  | [], s => some s
  | _ :: _, [] => none
  | a :: la, b :: lb =>
      if (if ci then lowerCh a == lowerCh b else a == b) then matchLit ci la lb else none

/-- The character classes occurring in the program's patterns, first-order
so that the token type has decidable equality and a computable size. -/
inductive CCls where
  | notGT      -- `[^>]`
  | notLT      -- `[^<]`
  | notQuote   -- `[^"]`
  | notNL      -- `.` without `re.DOTALL`
  | anyc       -- `.` with `re.DOTALL`
  | ws         -- `\s`
  | digit      -- `\d` and `[１２３４５６７８９０\d]`
  | fwsp       -- the ideographic space `　`
  | kanjiNum   -- `[一二三四五六七八九十\d]`
  | hNum       -- `[1-6]`
  | hsp        -- `[ \t]`
deriving DecidableEq

def cMatch : CCls → Char → Bool
  | .notGT, c => c != '>'
  | .notLT, c => c != '<'
  | .notQuote, c => c != '"'
  | .notNL, c => c != '\n'
  | .anyc, _ => true
  | .ws, c => pyWs c
  | .digit, c => pyDigit c
  | .fwsp, c => c == '　'
  | .kanjiNum, c =>
      c == '一' || c == '二' || c == '三' || c == '四' || c == '五' ||
      c == '六' || c == '七' || c == '八' || c == '九' || c == '十' || pyDigit c
  | .hNum, c => '1' ≤ c && c ≤ '6'
  | .hsp, c => c == ' ' || c == '\t'

/-- Tokens of the compiled regular expressions: literals, one-character
classes, greedy star/plus over a class, lazy star over a class,
alternation, and capturing groups. -/
inductive Tok where
  | lit (cs : List Char) (ci : Bool)
  | cls (p : CCls)
  | star (p : CCls)
  | plus (p : CCls)
  | lazy (p : CCls)
  | alts (alternatives : List (List Tok))
  | grp (n : Nat) (ts : List Tok)

mutual
/-- Computable size of a token, used as recursion fuel for the matcher. -/
def tokW : Tok → Nat
  | .lit _ _ => 1
  | .cls _ => 1
  | .star _ => 1
  | .plus _ => 1
  | .lazy _ => 1
  | .alts alternatives => altsW alternatives + 1
  | .grp _ g => listW g + 1

def altsW : List (List Tok) → Nat
  | [] => 1
  | a :: alternatives => listW a + altsW alternatives + 1

def listW : List Tok → Nat
  | [] => 1
  | t :: ts => tokW t + listW ts + 1
end

/-- All ways the token list can match a prefix of the input, in Python's
backtracking priority order: each element is the remaining input together
with the captured groups.  A single token's candidates are enumerated in
priority order and the continuation is explored for each, which is
exactly the backtracking order of Python's engine.  The recursion is
fuelled: every recursive call is on a token list of strictly smaller
weight `listW`, so `matchToks` below always supplies enough fuel and the
fuel-out branch is unreachable. -/
def matchToksF : Nat → List Tok → List Char → List (List Char × List (Nat × List Char))
  | 0, _, _ => []
  | _ + 1, [], s => [(s, [])]
  | fuel + 1, .lit cs ci :: ts, s =>
    match matchLit ci cs s with
    | some r => matchToksF fuel ts r
    | none => []
  | _ + 1, .cls _ :: _, [] => []
  | fuel + 1, .cls p :: ts, c :: s => if cMatch p c then matchToksF fuel ts s else []
  | fuel + 1, .star p :: ts, s =>
    (descN (leadRun (cMatch p) s)).flatMap (fun k => matchToksF fuel ts (s.drop k))
  | fuel + 1, .plus p :: ts, s =>
    ((descN (leadRun (cMatch p) s)).filter (fun k => 0 < k)).flatMap
      (fun k => matchToksF fuel ts (s.drop k))
  | fuel + 1, .lazy p :: ts, s =>
    (List.range (leadRun (cMatch p) s + 1)).flatMap (fun k => matchToksF fuel ts (s.drop k))
  | fuel + 1, .alts alternatives :: ts, s =>
    alternatives.flatMap (fun a =>
      (matchToksF fuel a s).flatMap (fun rc =>
        (matchToksF fuel ts rc.1).map (fun rc2 => (rc2.1, rc.2 ++ rc2.2))))
  | fuel + 1, .grp n g :: ts, s =>
    (matchToksF fuel g s).flatMap (fun rc =>
      (matchToksF fuel ts rc.1).map (fun rc2 =>
        (rc2.1, rc.2 ++ (n, s.take (s.length - rc.1.length)) :: rc2.2)))

def matchToks (ts : List Tok) (s : List Char) :
    List (List Char × List (Nat × List Char)) :=
  matchToksF (listW ts) ts s

/-- The match Python would pick at this position (or none). -/
def firstMatch (ts : List Tok) (s : List Char) :
    Option (List Char × List (Nat × List Char)) :=
  (matchToks ts s).head?

/-- Leftmost match in the input: its offset, the input remaining after it,
and its captures. -/
def findFirst (ts : List Tok) : List Char → Option (Nat × List Char × List (Nat × List Char))
  | [] => (firstMatch ts []).map (fun rc => (0, rc.1, rc.2))
  | c :: s =>
    match firstMatch ts (c :: s) with
    | some (r, caps) => some (0, r, caps)
    | none => (findFirst ts s).map (fun prc => (prc.1 + 1, prc.2.1, prc.2.2))

/-- A regex match: start offset, end offset, captured groups. -/
structure PyMatch where
  mstart : Nat
  mstop : Nat
  caps : List (Nat × List Char)
deriving DecidableEq

/-- Lookup of a captured group, Python's `m.group(n)`. -/
def capGet (caps : List (Nat × List Char)) (n : Nat) : List Char :=
  match caps.find? (fun c => c.1 == n) with
  | some c => c.2
  | none => []

/-- Python's `re.finditer`: non-overlapping matches scanning left to right,
resuming after the end of each match.  Fuelled by the input length: every
recursive call drops at least one character. -/
def pyFindIterF (ts : List Tok) : Nat → List Char → Nat → List PyMatch
  | 0, _, _ => []
  | fuel + 1, s, base =>
    match findFirst ts s with
    | none => []
    | some (p, rest, caps) =>
      let len := s.length - p - rest.length
      let m : PyMatch := ⟨base + p, base + p + len, caps⟩
      if len = 0 then
        if s.length ≤ p then [m]
        else m :: pyFindIterF ts fuel (s.drop (p + 1)) (base + p + 1)
      else m :: pyFindIterF ts fuel (s.drop (p + len)) (base + p + len)

def pyFindIter (ts : List Tok) (s : List Char) (base : Nat) : List PyMatch :=
  pyFindIterF ts (s.length + 1) s base

/-- Python's `re.sub` with a replacement computed from the captures,
fuelled like `pyFindIterF`. -/
def pySubF (ts : List Tok) (repl : List (Nat × List Char) → List Char) :
    Nat → List Char → List Char
  | 0, s => s
  | fuel + 1, s =>
    match findFirst ts s with
    | none => s
    | some (p, rest, caps) =>
      let len := s.length - p - rest.length
      if len = 0 then
        if s.length ≤ p then s.take p ++ repl caps
        else s.take p ++ repl caps ++ (s.drop p).take 1 ++ pySubF ts repl fuel (s.drop (p + 1))
      else s.take p ++ repl caps ++ pySubF ts repl fuel (s.drop (p + len))

def pySub (ts : List Tok) (repl : List (Nat × List Char) → List Char) (s : List Char) :
    List Char :=
  pySubF ts repl (s.length + 1) s

/-- Python's `re.findall` match count (`len(re.findall(...))` for the
patterns used here, which contain no capturing groups). -/
def countMatches (ts : List Tok) (s : List Char) : Nat := (pyFindIter ts s 0).length

/-- Python's `re.search` viewed as a test. -/
def reSearch (ts : List Tok) (s : List Char) : Bool := (findFirst ts s).isSome

/-- Python's `re.split` on a pattern with one capturing group: segments
interleaved with the group captures.  (The patterns this is used with can
never match the empty string.) -/
def pySplitCapF (ts : List Tok) : Nat → List Char → List (List Char)
  | 0, s => [s]
  | fuel + 1, s =>
    match findFirst ts s with
    | none => [s]
    | some (p, rest, caps) =>
      let len := s.length - p - rest.length
      if len = 0 then [s]
      else s.take p :: capGet caps 1 :: pySplitCapF ts fuel (s.drop (p + len))

def pySplitCap (ts : List Tok) (s : List Char) : List (List Char) :=
  pySplitCapF ts (s.length + 1) s

/-- Python's `str.strip()` with no argument. -/
def pyStrip (l : List Char) : List Char :=
  ((l.dropWhile pyWs).reverse.dropWhile pyWs).reverse

/-- `"\n\n".join(ps)`. -/
def joinNN : List (List Char) → List Char
  | [] => []
  | [p] => p
  | p :: ps => p ++ '\n' :: '\n' :: joinNN ps

/-- Python's `text.split('\n\n')`: leftmost, non-overlapping split on the
two-character separator. -/
def pySplit2NL : List Char → List (List Char)
  | '\n' :: '\n' :: rest => [] :: pySplit2NL rest
  | c :: rest =>
    match pySplit2NL rest with
    | h :: t => (c :: h) :: t
    | [] => [[c]]
  | [] => [[]]

/-- Substring test, Python's `sub in s`. -/
def containsL (sub : List Char) (s : List Char) : Bool :=
  match s with
  | [] => sub.isEmpty
  | _ :: t => (matchLit false sub s).isSome || containsL sub t

/-- `s.startswith(pre)`. -/
def startsWithL (pre : List Char) (s : List Char) : Bool :=
  (matchLit false pre s).isSome

/-- `s.endswith(suf)`. -/
def endsWithL (suf : List Char) (s : List Char) : Bool :=
  startsWithL suf.reverse s.reverse

/-- `str(Path(p).name)`: the part after the last `/`. -/
def pathName (p : List Char) : List Char :=
  ((p.reverse.takeWhile (fun c => c ≠ '/')).reverse)

/-- `s.split('#', 1)`: the part before the first `#`, and the part after it
when a `#` occurs. -/
def splitHash (s : List Char) : List Char × Option (List Char) :=
  match s.findIdx? (fun c => c == '#') with
  | some i => (s.take i, some (s.drop (i + 1)))
  | none => (s, none)

/-- `int(s)` for a string of ASCII digits (the only shape reaching the
conversion here); anything else raises `ValueError`, modelled as `none`. -/
def pyIntDigits (l : List Char) : Option Nat :=
  if l = [] then none
  else if l.all asciiDigit then
    some (l.foldl (fun acc c => acc * 10 + (c.toNat - '0'.toNat)) 0)
  else none

/-- Stable insertion into a key-sorted list: `x` goes before the first
element whose key is not smaller.  Together with `insSortBy` this models
Python's stable `list.sort(key=...)`. -/
def insertByKey (key : α → Nat) (x : α) : List α → List α
  | [] => [x]
  | a :: t => if key a < key x then a :: insertByKey key x t else x :: a :: t

/-- Stable sort by a natural-number key (Python's `list.sort(key=...)`). -/
def insSortBy (key : α → Nat) : List α → List α
  | [] => []
  | x :: t => insertByKey key x (insSortBy key t)

/-- Shorthand for literal tokens compiled with `re.IGNORECASE`. -/
def litci (s : String) : Tok := .lit s.data true

/-- Shorthand for case-sensitive literal tokens. -/
def litcs (s : String) : Tok := .lit s.data false

/-- The named character references `html.unescape` resolves, restricted to
a representative subset (the program's inputs only exercise the XML
predefined entities plus `&nbsp;`). -/
def entityTable : List (List Char × Char) :=
  [("amp;".data, '&'), ("lt;".data, '<'), ("gt;".data, '>'),
   ("quot;".data, '"'), ("#39;".data, '\''), ("apos;".data, '\''),
   ("nbsp;".data, ' ')]

/-- Model of `html.unescape` over that entity subset. -/
def pyUnescapeF : Nat → List Char → List Char
  | 0, s => s
  | _ + 1, [] => []
  | fuel + 1, '&' :: r =>
    match entityTable.findSome?
        (fun e => (matchLit false e.1 r).map (fun rest => (e.2, rest))) with
    | some (c, rest) => c :: pyUnescapeF fuel rest
    | none => '&' :: pyUnescapeF fuel r
  | fuel + 1, c :: r => c :: pyUnescapeF fuel r

def pyUnescape (s : List Char) : List Char := pyUnescapeF (s.length + 1) s

mutual
/-- Splitting a list into the elements at even and at odd positions
(Python's `range(0, len(parts), 2)` walk over `re.split` output). -/
def evens : List α → List α
  | [] => []
  | a :: t => a :: odds t

def odds : List α → List α
  | [] => []
  | _ :: t => evens t
end

/-! Compiled patterns of `process_furigana` and `html_to_text` (identical
in both source files). -/

/-- `<ruby>(.*?)</ruby>` with `re.DOTALL`. -/
def rubyPattern : List Tok := [litcs "<ruby>", .grp 1 [.lazy .anyc], litcs "</ruby>"]

/-- `<rt>(.*?)</rt>` (no flags, so `.` excludes newlines). -/
def rtSplitPattern : List Tok := [litcs "<rt>", .grp 1 [.lazy .notNL], litcs "</rt>"]

/-- `<rt>.*?</rt>` (no flags). -/
def rtRemovePattern : List Tok := [litcs "<rt>", .lazy .notNL, litcs "</rt>"]

/-- `<script[^>]*>.*?</script>` with `re.DOTALL | re.IGNORECASE`. -/
def scriptPattern : List Tok :=
  [litci "<script", .star .notGT, litci ">", .lazy .anyc, litci "</script>"]

/-- `<style[^>]*>.*?</style>` with `re.DOTALL | re.IGNORECASE`. -/
def stylePattern : List Tok :=
  [litci "<style", .star .notGT, litci ">", .lazy .anyc, litci "</style>"]

def brPattern : List Tok := [litci "<br", .star .notGT, litci ">"]
def pClosePattern : List Tok := [litci "</p>"]
def pOpenPattern : List Tok := [litci "<p", .star .notGT, litci ">"]
def hOpenPattern : List Tok := [litci "<h", .cls .hNum, .star .notGT, litci ">"]
def hClosePattern : List Tok := [litci "</h", .cls .hNum, litci ">"]
def divOpenPattern : List Tok := [litci "<div", .star .notGT, litci ">"]
def divClosePattern : List Tok := [litci "</div>"]

/-- `<[^>]+>` (no flags). -/
def anyTagPattern : List Tok := [litcs "<", .plus .notGT, litcs ">"]

/-- `\n\s*\n`. -/
def blankLinesPattern : List Tok := [litcs "\n", .star .ws, litcs "\n"]

/-- `[ \t]+`. -/
def hSpacePattern : List Tok := [.plus .hsp]

/-- The `end_pos` a match receives in the subchapter loop: the next
match's start, or the markup length. -/
def endPosOf (html : List Char) : List (String × PyMatch) → Nat
  | (_, m2) :: _ => m2.mstart
  | [] => html.length

namespace Pkg
/-!
Embedding of `src/epub_chapter_extractor/epub_chapter_extractor.py`
(the packaged copy of the script).
-/

/-- A detected subchapter, `find_subchapters_in_html`'s dict
`{'number', 'start_pos', 'end_pos', 'content', 'pattern'}`. -/
structure Subchapter where
  number : List Char
  start_pos : Nat
  end_pos : Nat
  content : List Char
  pattern : String
deriving DecidableEq

/-- Pattern 1: `<div[^>]*class="start-4em"[^>]*>\s*<p[^>]*>([１２３４５６７８９０\d]+)</p>\s*</div>`. -/
def subPattern1 : List Tok :=
  [litci "<div", .star .notGT, litci "class=\"start-4em\"", .star .notGT, litci ">",
   .star .ws, litci "<p", .star .notGT, litci ">", .grp 1 [.plus .digit],
   litci "</p>", .star .ws, litci "</div>"]

/-- Pattern 2: `<span[^>]*class="gfont"[^>]*>([１２３４５６７８９０\d]+)</span>`. -/
def subPattern2 : List Tok :=
  [litci "<span", .star .notGT, litci "class=\"gfont\"", .star .notGT, litci ">",
   .grp 1 [.plus .digit], litci "</span>"]

/-- Pattern 3: `<p[^>]*>\s*　+\s*<span[^>]*class="gfont"[^>]*>([１２３４５６７８９０\d]+)</span>\s*</p>`. -/
def subPattern3 : List Tok :=
  [litci "<p", .star .notGT, litci ">", .star .ws, .plus .fwsp, .star .ws,
   litci "<span", .star .notGT, litci "class=\"gfont\"", .star .notGT, litci ">",
   .grp 1 [.plus .digit], litci "</span>", .star .ws, litci "</p>"]

/-- Pattern 4: `<div[^>]*class="start-8em"[^>]*>\s*<p[^>]*>\s*<span[^>]*class="font-1em10[^"]*"[^>]*>([１２３４５６７８９０\d]+)</span>\s*</p>\s*</div>`. -/
def subPattern4 : List Tok :=
  [litci "<div", .star .notGT, litci "class=\"start-8em\"", .star .notGT, litci ">",
   .star .ws, litci "<p", .star .notGT, litci ">", .star .ws,
   litci "<span", .star .notGT, litci "class=\"font-1em10", .star .notQuote, litci "\"",
   .star .notGT, litci ">", .grp 1 [.plus .digit], litci "</span>",
   .star .ws, litci "</p>", .star .ws, litci "</div>"]

/-- Pattern 5: `<p[^>]*>\s*　{2,}\s*([１２３４５６７８９０\d]+)\s*</p>`. -/
def subPattern5 : List Tok :=
  [litci "<p", .star .notGT, litci ">", .star .ws, litci "　　", .star .fwsp,
   .star .ws, .grp 1 [.plus .digit], .star .ws, litci "</p>"]

/-- The five subchapter marker patterns in declaration order. -/
def subchapterPatterns : List (String × List Tok) :=
  [("pattern1", subPattern1), ("pattern2", subPattern2), ("pattern3", subPattern3),
   ("pattern4", subPattern4), ("pattern5", subPattern5)]

/-- `all_matches` of `find_subchapters_in_html`: the matches of all five
patterns pooled in pattern order and stably sorted by start position
(Python's `all_matches.sort(key=lambda x: x[1].start())`). -/
def subchapterMatches (html : List Char) : List (String × PyMatch) :=
  insSortBy (fun x => x.2.mstart)
    (subchapterPatterns.flatMap (fun pt => (pyFindIter pt.2 html 0).map (fun m => (pt.1, m))))

/-- The `number_map` dict: full-width digit to ASCII digit, other characters unchanged. -/
def number_map (c : Char) : Char :=
  if c == '１' then '1' else if c == '２' then '2' else if c == '３' then '3'
  else if c == '４' then '4' else if c == '５' then '5' else if c == '６' then '6'
  else if c == '７' then '7' else if c == '８' then '8' else if c == '９' then '9'
  else if c == '０' then '0' else c

/-- The character-by-character conversion loop producing `converted_number`. -/
def convertNumber (g : List Char) : List Char := g.map number_map

/-- The loop of `find_subchapters_in_html` building `subchapters` from the
sorted `all_matches`: each match's span ends at the *next* match's start
(or the markup's end), and a match whose converted number is not an
integer in `[1, 50]` is skipped.  The Python loop indexes
`all_matches[i + 1]`; expressed recursively, each element looks at its
immediate successor. -/
def buildSubchapters (html : List Char) : List (String × PyMatch) → List Subchapter
  | [] => []
  | (pt, m) :: rest =>
    match pyIntDigits (convertNumber (capGet m.caps 1)) with
    | none => buildSubchapters html rest
    | some n =>
      if n < 1 ∨ n > 50 then buildSubchapters html rest
      else
        ⟨convertNumber (capGet m.caps 1), m.mstart, endPosOf html rest,
         (html.take (endPosOf html rest)).drop m.mstart, pt⟩ :: buildSubchapters html rest

/-- `find_subchapters_in_html`: collect and sort the pattern matches, build
the spans, and — when any subchapter was retained and the first *detected*
marker is not at offset 0 — force the first retained span to start at 0. -/
def find_subchapters_in_html (html : List Char) : List Subchapter :=
  match buildSubchapters html (subchapterMatches html), subchapterMatches html with
  | [], _ => []
  | s0 :: rest, [] => s0 :: rest
  | s0 :: rest, (_, m0) :: _ =>
    if 0 < m0.mstart then
      { s0 with start_pos := 0, content := html.take s0.end_pos } :: rest
    else s0 :: rest

/-! ### Chunk Splitter (`split_and_save_text`, `extract_chapter_with_subchapters`) -/

/-- `CHUNK_SIZE = 15000`. -/
def CHUNK_SIZE : Nat := 15000

/-- `math.ceil(a / b)` for the integer magnitudes occurring here (the
float division is exact enough that the ceiling of the true quotient is
returned; see the note at `split_trigger`). -/
def ceilDiv (a b : Nat) : Nat := (a + b - 1) / b

/-- The greedy paragraph-accumulation loop of `split_and_save_text`,
returning the chunk bodies (`"\n\n".join(current_chunk_paras)` at each
close and at the end).  `cur` is `current_chunk_paras` and `curLen` is
`current_chunk_len` (which adds `p_len + 2` on an append but is reset to
`p_len` on a close, exactly as in the source). -/
def chunkLoop (target : Nat) : List (List Char) → List (List Char) → Nat → List (List Char)
  | [], cur, _ => if cur.isEmpty then [] else [joinNN cur]
  | p :: ps, cur, curLen =>
    let q := pyStrip p
    if q.isEmpty then chunkLoop target ps cur curLen
    else if ¬ cur.isEmpty ∧ curLen + q.length > target then
      joinNN cur :: chunkLoop target ps [q] q.length
    else chunkLoop target ps (cur ++ [q]) (curLen + q.length + 2)

/-- Same loop, but returning each chunk as its list of paragraphs instead
of the joined body; `chunkLoop` is its image under `joinNN`. -/
def chunkGroups (target : Nat) : List (List Char) → List (List Char) → Nat → List (List (List Char))
  | [], cur, _ => if cur.isEmpty then [] else [cur]
  | p :: ps, cur, curLen =>
    let q := pyStrip p
    if q.isEmpty then chunkGroups target ps cur curLen
    else if ¬ cur.isEmpty ∧ curLen + q.length > target then
      cur :: chunkGroups target ps [q] q.length
    else chunkGroups target ps (cur ++ [q]) (curLen + q.length + 2)

/-- The pure content of `split_and_save_text`: the list of chunk bodies it
writes.  When `num_chunks <= 1` it writes `text_content` itself as a single
file; otherwise it recomputes the even target size and runs the greedy
paragraph loop over `text_content.split('\n\n')`. -/
def split_and_save_text (text_content : List Char) : List (List Char) :=
  let total_len := text_content.length
  let num_chunks := ceilDiv total_len CHUNK_SIZE
  if num_chunks ≤ 1 then [text_content]
  else
    let target_chunk_size := ceilDiv total_len num_chunks
    chunkLoop target_chunk_size (pySplit2NL text_content) [] 0

/-- The recomputed even target size `math.ceil(total_len / num_chunks)`. -/
def targetOf (text_content : List Char) : Nat :=
  ceilDiv text_content.length (ceilDiv text_content.length CHUNK_SIZE)

/-- The splitting decision of `extract_chapter_with_subchapters` when no
subchapters were found: split only when the option is on and
`len(chapter_text) > CHUNK_SIZE * CHUNK_SIZE_TOLERANCE`.  With
`CHUNK_SIZE = 15000` and `CHUNK_SIZE_TOLERANCE = 1.2` the float product
rounds to exactly `18000.0`, so for integer lengths the comparison is
`len > 18000`. -/
def split_trigger (split_no_subchapters : Bool) (chapter_text : List Char) : Bool :=
  split_no_subchapters && decide (chapter_text.length > 18000)

/-! ### Navigation Resolver -/

/-- A chapter marker dict `{'title', 'file', 'anchor', 'href'}`. -/
structure ChapterMarker where
  title : List Char
  file : List Char
  anchor : Option (List Char)
  href : List Char
deriving DecidableEq

/-- An `<a>` element of the chosen `<nav>` of a navigation document, as
`xml.etree` exposes it to `_parse_navigation_xhtml`: its `href` attribute
and its text (either may be missing). -/
structure RawLink where
  href : Option (List Char)
  text : Option (List Char)

/-- A `navPoint` of an NCX document as `_parse_toc_ncx` reads it: the
`navLabel/text` content and the `content@src` attribute (either may be
missing, collapsing the element-missing and text-`None` cases, which the
source treats identically). -/
structure NavPoint where
  label : Option (List Char)
  src : Option (List Char)

/-- The denylist test
`any(x in text.lower() for x in ['表紙', '目次', '奥付', 'cover', 'toc', 'contents'])`. -/
def navSkip (text : List Char) : Bool :=
  ["表紙", "目次", "奥付", "cover", "toc", "contents"].any
    (fun x => containsL x.data (lowerL text))

/-- `_parse_navigation_xhtml`: on a parse failure the exception handler
returns `[]`; otherwise each link with truthy `href` and text is split
into file and anchor, a leading `OEBPS/` is dropped, and denylisted
titles are skipped. -/
def _parse_navigation_xhtml (doc : Except String (List RawLink)) : List ChapterMarker :=
  match doc with
  | .error _ => []
  | .ok links =>
    links.foldr
      (fun link acc =>
        match link.href, link.text with
        | some href, some text =>
          if href ≠ [] ∧ text ≠ [] then
            let fa := splitHash href
            let file_part := if startsWithL "OEBPS/".data fa.1 then fa.1.drop 6 else fa.1
            if navSkip text then acc
            else ⟨pyStrip text, file_part, fa.2, href⟩ :: acc
          else acc
        | _, _ => acc)
      []

/-- `_parse_toc_ncx`: same recovery and marker construction over `navPoint`s. -/
def _parse_toc_ncx (doc : Except String (List NavPoint)) : List ChapterMarker :=
  match doc with
  | .error _ => []
  | .ok points =>
    points.foldr
      (fun np acc =>
        match np.label, np.src with
        | some title, some src =>
          if title ≠ [] ∧ src ≠ [] then
            let fa := splitHash src
            let file_part := if startsWithL "OEBPS/".data fa.1 then fa.1.drop 6 else fa.1
            if navSkip title then acc
            else ⟨pyStrip title, file_part, fa.2, src⟩ :: acc
          else acc
        | _, _ => acc)
      []

/-- An `xml.etree` element tree, for the embedded-TOC path that iterates a
parsed content document. -/
inductive XmlNode where
  | mk (tag : List Char) (attrs : List (List Char × List Char))
       (text : Option (List Char)) (children : List XmlNode) (tail : Option (List Char))

def XmlNode.tag : XmlNode → List Char
  | .mk t _ _ _ _ => t

def XmlNode.attrs : XmlNode → List (List Char × List Char)
  | .mk _ a _ _ _ => a

def XmlNode.getAttr (n : XmlNode) (k : List Char) : Option (List Char) :=
  (n.attrs.find? (fun e => e.1 == k)).map (fun e => e.2)

mutual
/-- `root.iter()`: the element and its descendants in document order. -/
def iterNodes : XmlNode → List XmlNode
  | .mk t a tx cs tl => .mk t a tx cs tl :: iterNodesL cs

def iterNodesL : List XmlNode → List XmlNode
  | [] => []
  | c :: cs => iterNodes c ++ iterNodesL cs
end

mutual
/-- `''.join(el.itertext())`: the element's text followed, for each child,
by the child's itertext and the child's tail. -/
def itertextOf : XmlNode → List Char
  | .mk _ _ tx cs _ => tx.getD [] ++ itertextL cs

def itertextL : List XmlNode → List Char
  | [] => []
  | c :: cs =>
    itertextOf c ++ (match c with | .mk _ _ _ _ tl => tl.getD []) ++ itertextL cs
end

/-- A spine item as the Navigation Resolver and chapter assembly see it:
its manifest `href` and `media-type`, whether its resolved `full_path`
exists on disk, what reading it yields (`none` models a read error), and
what `ET.fromstring` yields on its cleaned content (`none` models a
`ParseError`, which sends `_extract_chapter_links` to its regex
fallback). -/
structure SpineItem where
  href : List Char
  media_type : List Char
  existsOnDisk : Bool
  content : Option (List Char)
  xmlParse : Option XmlNode

def isHtmlItem (it : SpineItem) : Bool :=
  it.media_type == "application/xhtml+xml".data || it.media_type == "text/html".data

/-- The `skip_items` denylist of `_is_chapter_link`. -/
def chapterSkip (text : List Char) : Bool :=
  ["表紙", "目次", "奥付", "cover", "toc", "contents", "解説"].any
    (fun x => containsL x.data (lowerL text))

/-- The seven `chapter_patterns` of `_is_chapter_link` (searched with
`re.IGNORECASE`). -/
def chapterPatterns : List (List Tok) :=
  [[litci "第", .plus .kanjiNum, litci "章"],
   [litci "Chapter", .star .ws, .plus .digit],
   [litci "プロローグ"],
   [litci "エピローグ"],
   [litci "あとがき"],
   [litci "終", .star .ws, litci "章"],
   [.plus .kanjiNum, litci "章"]]

/-- `_is_chapter_link`: nonempty, not denylisted, and matching one of the
chapter-heading patterns. -/
def _is_chapter_link (text : List Char) : Bool :=
  if text = [] then false
  else if chapterSkip text then false
  else chapterPatterns.any (fun p => reSearch p text)

/-- First counting pattern of `_has_chapter_links`:
`<a[^>]*href="[^"]*"[^>]*>[^<]*(?:第[一二三四五六七八九十\d]+章|Chapter\s*\d+|プロローグ|エピローグ|あとがき)`. -/
def hasLinksPattern1 : List Tok :=
  [litci "<a", .star .notGT, litci "href=\"", .star .notQuote, litci "\"",
   .star .notGT, litci ">", .star .notLT,
   .alts [[litci "第", .plus .kanjiNum, litci "章"],
          [litci "Chapter", .star .ws, .plus .digit],
          [litci "プロローグ"], [litci "エピローグ"], [litci "あとがき"]]]

/-- Second counting pattern of `_has_chapter_links`:
`<a[^>]*href="[^"]*"[^>]*>[^<]*(?:章|chapter|prologue|epilogue)`. -/
def hasLinksPattern2 : List Tok :=
  [litci "<a", .star .notGT, litci "href=\"", .star .notQuote, litci "\"",
   .star .notGT, litci ">", .star .notLT,
   .alts [[litci "章"], [litci "chapter"], [litci "prologue"], [litci "epilogue"]]]

/-- `_has_chapter_links`: at least 3 chapter-like links counted over the
two patterns. -/
def _has_chapter_links (content : List Char) : Bool :=
  countMatches hasLinksPattern1 content + countMatches hasLinksPattern2 content ≥ 3

/-- The marker construction shared by both branches of
`_extract_chapter_links`: split off the anchor and drop a leading
`OEBPS/`. -/
def buildChapterMarker (href text : List Char) : ChapterMarker :=
  let fa := splitHash href
  let file_part := if startsWithL "OEBPS/".data fa.1 then fa.1.drop 6 else fa.1
  ⟨pyStrip text, file_part, fa.2, href⟩

/-- The link pattern of `_extract_chapter_links_regex`:
`<a[^>]*href="([^"]*)"[^>]*>([^<]*)</a>`. -/
def linkPattern : List Tok :=
  [litci "<a", .star .notGT, litci "href=\"", .grp 1 [.star .notQuote], litci "\"",
   .star .notGT, litci ">", .grp 2 [.star .notLT], litci "</a>"]

/-- `_extract_chapter_links_regex`: the regex fallback over the raw content. -/
def _extract_chapter_links_regex (content : List Char) : List ChapterMarker :=
  (pyFindIter linkPattern content 0).foldr
    (fun m acc =>
      let href := capGet m.caps 1
      let text := pyStrip (capGet m.caps 2)
      if _is_chapter_link text then buildChapterMarker href text :: acc else acc)
    []

/-- `_extract_chapter_links`: when `ET.fromstring` parses the cleaned
content, walk the tree collecting links whose tag ends in `a`; on a parse
error fall back to the regex extraction. -/
def _extract_chapter_links (xmlParse : Option XmlNode) (content : List Char) :
    List ChapterMarker :=
  match xmlParse with
  | some root =>
    (iterNodes root).foldr
      (fun link acc =>
        if endsWithL "a".data link.tag then
          match link.getAttr "href".data with
          | some href =>
            let text := pyStrip (itertextOf link)
            if href ≠ [] ∧ text ≠ [] ∧ _is_chapter_link text then
              buildChapterMarker href text :: acc
            else acc
          | none => acc
        else acc)
      []
  | none => _extract_chapter_links_regex content

/-- `spine_order`: the dict `{Path(item['href']).name: i}` (later
duplicates overwrite), looked up by the raw marker file. -/
def spineOrderGet (spine_items : List SpineItem) (filename : List Char) : Option Nat :=
  (((spine_items.enum.map (fun p => (pathName p.2.href, p.1))).reverse).find?
    (fun e => e.1 == filename)).map (fun e => e.2)

/-- `sort_key`: the spine index, defaulting to `999` when the marker's
target file is not a key of `spine_order`. -/
def sortKeyOf (spine_items : List SpineItem) (m : ChapterMarker) : Nat :=
  (spineOrderGet spine_items m.file).getD 999

/-- The `seen`-set dedup loop keeping the first marker for each
`(file, anchor)` pair. -/
def dedupMarkers (seen : List (List Char × Option (List Char))) :
    List ChapterMarker → List ChapterMarker
  | [] => []
  | m :: t =>
    let key := (m.file, m.anchor)
    if key ∈ seen then dedupMarkers seen t
    else m :: dedupMarkers (key :: seen) t

/-- `_deduplicate_and_sort_markers`: dedup, then Python's stable
`list.sort` on the spine-order key. -/
def _deduplicate_and_sort_markers (spine_items : List SpineItem)
    (markers : List ChapterMarker) : List ChapterMarker :=
  insSortBy (sortKeyOf spine_items) (dedupMarkers [] markers)

/-- The acceptance test of `_parse_embedded_toc` for one content document:
`'CONTENTS' in content or self._has_chapter_links(content)`. -/
def embeddedAccepts (content : List Char) : Bool :=
  containsL "CONTENTS".data content || _has_chapter_links content

/-- `_parse_embedded_toc`: pool the links of every existing, readable,
accepted chapter-content spine item, then dedup and sort when anything
was found. -/
def _parse_embedded_toc (spine_items : List SpineItem) : List ChapterMarker :=
  let chapter_markers :=
    spine_items.foldr
      (fun it acc =>
        if isHtmlItem it then
          if it.existsOnDisk then
            match it.content with
            | some content =>
              if embeddedAccepts content then
                _extract_chapter_links it.xmlParse content ++ acc
              else acc
            | none => acc
          else acc
        else acc)
      []
  if chapter_markers = [] then []
  else _deduplicate_and_sort_markers spine_items chapter_markers

/-- The navigation strategies, in cascade order, as trace events. -/
inductive StratEv where
  | navXhtmlEv
  | navDocsEv
  | tocNcxEv
  | embeddedEv
deriving DecidableEq

/-- The package state `parse_navigation_file` looks at: for each candidate
navigation file, `none` when the file does not exist and otherwise the
outcome of parsing it; plus the spine items for the embedded fallback. -/
structure NavEnv where
  navXhtml : Option (Except String (List RawLink))
  navDocsBase : Option (Except String (List RawLink))
  navDocsItem : Option (Except String (List RawLink))
  tocNcx : Option (Except String (List NavPoint))
  spine_items : List SpineItem

/-- Step 4 of the cascade: the embedded-TOC fallback (its result is
returned whether or not it is empty). -/
def navStep4 (env : NavEnv) : List ChapterMarker × List StratEv :=
  (_parse_embedded_toc env.spine_items, [.embeddedEv])

/-- Step 3: `toc.ncx` when it exists, cascading on zero markers. -/
def navStep3 (env : NavEnv) : List ChapterMarker × List StratEv :=
  match env.tocNcx with
  | some doc =>
    let ms := _parse_toc_ncx doc
    if ms = [] then
      let r := navStep4 env
      (r.1, .tocNcxEv :: r.2)
    else (ms, [.tocNcxEv])
  | none => navStep4 env

/-- Step 2: `navigation-documents.xhtml`, looked for at the base directory
and then under `item/`, cascading on zero markers. -/
def navStep2 (env : NavEnv) : List ChapterMarker × List StratEv :=
  match env.navDocsBase with
  | some doc =>
    let ms := _parse_navigation_xhtml doc
    if ms = [] then
      let r := navStep3 env
      (r.1, .navDocsEv :: r.2)
    else (ms, [.navDocsEv])
  | none =>
    match env.navDocsItem with
    | some doc =>
      let ms := _parse_navigation_xhtml doc
      if ms = [] then
        let r := navStep3 env
        (r.1, .navDocsEv :: r.2)
      else (ms, [.navDocsEv])
    | none => navStep3 env

/-- `parse_navigation_file`: the four-strategy cascade, starting with
`nav.xhtml`.  Besides the marker list it returns the trace of strategies
whose parser actually ran, so that "the NCX file is never parsed" is a
statement about the result. -/
def parse_navigation_file (env : NavEnv) : List ChapterMarker × List StratEv :=
  match env.navXhtml with
  | some doc =>
    let ms := _parse_navigation_xhtml doc
    if ms = [] then
      let r := navStep2 env
      (r.1, .navXhtmlEv :: r.2)
    else (ms, [.navXhtmlEv])
  | none => navStep2 env

/-! ### Manifest & Spine Loader (`parse_opf_file`) -/

/-- A manifest `item` element as `parse_opf_file` reads it: the `id`,
`href` and `media-type` attributes (any may be missing). -/
structure OpfItem where
  id : Option (List Char)
  href : Option (List Char)
  media_type : Option (List Char)

/-- A parsed OPF document: its manifest items and the `idref`s of its
spine `itemref`s, in document order. -/
structure OpfDoc where
  items : List OpfItem
  itemrefs : List (Option (List Char))

/-- The dict stored in `manifest_items[item_id]`. -/
structure ManifestEntry where
  href : List Char
  media_type : Option (List Char)
  full_path : List Char
deriving DecidableEq

/-- `base_dir / rel`. -/
def joinPath (base rel : List Char) : List Char := base ++ '/' :: rel

/-- Python-dict insertion: overwrite in place when the key exists,
otherwise append. -/
def dictSet (d : List (List Char × ManifestEntry)) (k : List Char) (v : ManifestEntry) :
    List (List Char × ManifestEntry) :=
  if d.any (fun e => e.1 == k) then
    d.map (fun e => if e.1 == k then (k, v) else e)
  else d ++ [(k, v)]

def dictGet (d : List (List Char × ManifestEntry)) (k : List Char) : Option ManifestEntry :=
  (d.find? (fun e => e.1 == k)).map (fun e => e.2)

/-- The `full_path` resolution of `parse_opf_file`: `href`s already under
`OEBPS/` or `item/` are taken relative to the OPF directory; otherwise the
first existing candidate among the direct path, the `OEBPS/`
subdirectory and the `item/xhtml/` subdirectory is used, defaulting to
the direct path. -/
def resolveFullPath (fs : List Char → Bool) (base_dir href : List Char) : List Char :=
  if startsWithL "OEBPS/".data href || startsWithL "item/".data href then
    joinPath base_dir href
  else
    let candidates := [joinPath base_dir href,
                       joinPath base_dir ("OEBPS/".data ++ href),
                       joinPath base_dir ("item/xhtml/".data ++ href)]
    match candidates.find? fs with
    | some p => p
    | none => joinPath base_dir href

/-- What `parse_opf_file` computes and stores. -/
structure OpfResult where
  manifest : List (List Char × ManifestEntry)
  spine_items : List ManifestEntry
  chapters : List ManifestEntry

def isHtmlMedia (m : Option (List Char)) : Bool :=
  m == some "application/xhtml+xml".data || m == some "text/html".data

/-- `parse_opf_file`: `ET.parse` is *not* wrapped in a handler, so a parse
failure propagates (the error value is returned unchanged); otherwise the
manifest map, the spine (resolved against the manifest, unresolved
`idref`s silently dropped) and the HTML/XHTML chapter filter are built. -/
def parse_opf_file (fs : List Char → Bool) (base_dir : List Char)
    (doc : Except String OpfDoc) : Except String OpfResult :=
  match doc with
  | .error e => .error e
  | .ok d =>
    let manifest_items :=
      d.items.foldl
        (fun acc item =>
          match item.id, item.href with
          | some item_id, some href =>
            if item_id ≠ [] ∧ href ≠ [] then
              dictSet acc item_id
                ⟨href, item.media_type, resolveFullPath fs base_dir href⟩
            else acc
          | _, _ => acc)
        []
    let spine_items :=
      d.itemrefs.foldr
        (fun idref acc =>
          match idref with
          | some r =>
            match dictGet manifest_items r with
            | some entry => entry :: acc
            | none => acc
          | none => acc)
        []
    let chapters := spine_items.filter (fun it => isHtmlMedia it.media_type)
    .ok ⟨manifest_items, spine_items, chapters⟩

/-! ### Chapter assembly (`create_chapter_text_files`, `get_chapter_files`) -/

/-- The start-file normalization of `create_chapter_text_files` (applied
both to a marker's own file and to the next marker's): drop a leading
`xhtml/`. -/
def markerStartFile (file : List Char) : List Char :=
  if startsWithL "xhtml/".data file then file.drop 6 else file

/-- The spine scan of `get_chapter_files` for the first HTML/XHTML item
whose filename equals the (normalized) marker target. -/
def findStartIndex (spine_items : List SpineItem) (start_file : List Char) : Option Nat :=
  spine_items.findIdx? (fun it => isHtmlItem it && pathName it.href == start_file)

/-- `get_chapter_files`: the HTML/XHTML spine items from the marker's
start file up to (excluding) the next marker's start file, or to the end
of the spine. -/
def get_chapter_files (spine_items : List SpineItem) (start_file : List Char)
    (next_start_file : Option (List Char)) : List SpineItem :=
  match findStartIndex spine_items start_file with
  | none => []
  | some start_index =>
    let end_index :=
      match next_start_file with
      | some nf =>
        match (spine_items.drop (start_index + 1)).findIdx?
            (fun it => isHtmlItem it && pathName it.href == nf) with
        | some j => start_index + 1 + j
        | none => spine_items.length
      | none => spine_items.length
    ((spine_items.drop start_index).take (end_index - start_index)).filter isHtmlItem

/-! ### HTML Normalizer (`process_furigana`, `html_to_text`) -/

/-- `replace_ruby`: split the ruby body on `<rt>(.*?)</rt>`, join the even
parts as the base text and the odd parts as the reading, and emit
`base（reading）` when a reading exists. -/
def replace_ruby (ruby_content : List Char) : List Char :=
  let parts := pySplitCap rtSplitPattern ruby_content
  let kanji_text := (evens parts).foldr (· ++ ·) []
  let furigana_text := (odds parts).foldr (· ++ ·) []
  if furigana_text ≠ [] then kanji_text ++ '（' :: (furigana_text ++ ['）'])
  else kanji_text

/-- `replace_ruby_kanji_only`: drop every `<rt>...</rt>` from the ruby body. -/
def replace_ruby_kanji_only (ruby_content : List Char) : List Char :=
  pySub rtRemovePattern (fun _ => []) ruby_content

/-- `process_furigana`: rewrite each `<ruby>...</ruby>` according to the
furigana mode. -/
def process_furigana (show_furigana : Bool) (html_content : List Char) : List Char :=
  if show_furigana then
    pySub rubyPattern (fun caps => replace_ruby (capGet caps 1)) html_content
  else
    pySub rubyPattern (fun caps => replace_ruby_kanji_only (capGet caps 1)) html_content

/-- `html_to_text`: furigana resolution, script/style removal, entity
decoding, block-tag structuring, tag stripping, whitespace normalization,
final strip — in source order. -/
def html_to_text (show_furigana : Bool) (html_content : List Char) : List Char :=
  let h := process_furigana show_furigana html_content
  let h := pySub scriptPattern (fun _ => []) h
  let h := pySub stylePattern (fun _ => []) h
  let h := pyUnescape h
  let h := pySub brPattern (fun _ => ['\n']) h
  let h := pySub pClosePattern (fun _ => ['\n', '\n']) h
  let h := pySub pOpenPattern (fun _ => []) h
  let h := pySub hOpenPattern (fun _ => ['\n', '\n']) h
  let h := pySub hClosePattern (fun _ => ['\n', '\n']) h
  let h := pySub divOpenPattern (fun _ => ['\n']) h
  let h := pySub divClosePattern (fun _ => ['\n']) h
  let h := pySub anyTagPattern (fun _ => []) h
  let h := pySub blankLinesPattern (fun _ => ['\n', '\n']) h
  let h := pySub hSpacePattern (fun _ => [' ']) h
  pyStrip h

end Pkg

namespace Root
/-!
Embedding of the HTML Normalizer of `src/epub_chapter_extractor.py` (the
stand-alone copy of the script); its `process_furigana` and
`html_to_text` are compared against the packaged copy's in claim C10.
-/

/-- `replace_ruby` of the stand-alone script. -/
def replace_ruby (ruby_content : List Char) : List Char :=
  let parts := pySplitCap rtSplitPattern ruby_content
  let kanji_text := (evens parts).foldr (· ++ ·) []
  let furigana_text := (odds parts).foldr (· ++ ·) []
  if furigana_text ≠ [] then kanji_text ++ '（' :: (furigana_text ++ ['）'])
  else kanji_text

/-- `replace_ruby_kanji_only` of the stand-alone script. -/
def replace_ruby_kanji_only (ruby_content : List Char) : List Char :=
  pySub rtRemovePattern (fun _ => []) ruby_content

/-- `process_furigana` of the stand-alone script. -/
def process_furigana (show_furigana : Bool) (html_content : List Char) : List Char :=
  if show_furigana then
    pySub rubyPattern (fun caps => replace_ruby (capGet caps 1)) html_content
  else
    pySub rubyPattern (fun caps => replace_ruby_kanji_only (capGet caps 1)) html_content

/-- `html_to_text` of the stand-alone script. -/
def html_to_text (show_furigana : Bool) (html_content : List Char) : List Char :=
  let h := process_furigana show_furigana html_content
  let h := pySub scriptPattern (fun _ => []) h
  let h := pySub stylePattern (fun _ => []) h
  let h := pyUnescape h
  let h := pySub brPattern (fun _ => ['\n']) h
  let h := pySub pClosePattern (fun _ => ['\n', '\n']) h
  let h := pySub pOpenPattern (fun _ => []) h
  let h := pySub hOpenPattern (fun _ => ['\n', '\n']) h
  let h := pySub hClosePattern (fun _ => ['\n', '\n']) h
  let h := pySub divOpenPattern (fun _ => ['\n']) h
  let h := pySub divClosePattern (fun _ => ['\n']) h
  let h := pySub anyTagPattern (fun _ => []) h
  let h := pySub blankLinesPattern (fun _ => ['\n', '\n']) h
  let h := pySub hSpacePattern (fun _ => [' ']) h
  pyStrip h

end Root

/-! ### Properties under test and concrete inputs -/

/-- A run of two consecutive newlines (the paragraph separator) occurs. -/
def hasNN : List Char → Bool
  | '\n' :: '\n' :: _ => true
  | _ :: t => hasNN t
  | [] => false

/-- A paragraph as the Normalizer's collapse step produces between
separators: nonempty, carrying no leading/trailing whitespace (so
`p.strip() == p`), and containing no paragraph separator. -/
def goodPara (p : List Char) : Prop :=
  p ≠ [] ∧ pyStrip p = p ∧ hasNN p = false

instance (p : List Char) : Decidable (goodPara p) :=
  inferInstanceAs (Decidable (p ≠ [] ∧ pyStrip p = p ∧ hasNN p = false))

/-- The length of the longest stripped paragraph of a text. -/
def maxStrippedParaLen (text : List Char) : Nat :=
  ((pySplit2NL text).map (fun p => (pyStrip p).length)).foldr max 0

/-- The contribution of one paragraph to the chunk stream: `split_and_save_text`
strips each paragraph and drops it when the stripped form is empty. -/
def strippedPara? (p : List Char) : Option (List Char) :=
  if (pyStrip p).isEmpty then none else some (pyStrip p)

/-- `spans[i].end == spans[i+1].start` for every adjacent pair. -/
def spansChainB : List Pkg.Subchapter → Bool
  | a :: b :: t => (a.end_pos == b.start_pos) && spansChainB (b :: t)
  | _ => true

/-- The contiguous-partition property claimed of the Subchapter Segmenter:
a non-empty result starts at offset 0, is chained (`end = next start`),
and ends at the markup length. -/
def subchapterSpansPartition (html : List Char) : Prop :=
  Pkg.find_subchapters_in_html html ≠ [] →
    ((Pkg.find_subchapters_in_html html).head?.map Pkg.Subchapter.start_pos = some 0 ∧
     spansChainB (Pkg.find_subchapters_in_html html) = true ∧
     (Pkg.find_subchapters_in_html html).getLast?.map Pkg.Subchapter.end_pos =
       some html.length)

instance (html : List Char) : Decidable (subchapterSpansPartition html) :=
  inferInstanceAs (Decidable
    (Pkg.find_subchapters_in_html html ≠ [] →
      ((Pkg.find_subchapters_in_html html).head?.map Pkg.Subchapter.start_pos = some 0 ∧
       spansChainB (Pkg.find_subchapters_in_html html) = true ∧
       (Pkg.find_subchapters_in_html html).getLast?.map Pkg.Subchapter.end_pos =
         some html.length)))

/-- A pooled pattern match is retained by the range filter: its converted
numeral is an integer in `[1, 50]`. -/
def markerKeptB (x : String × PyMatch) : Bool :=
  match pyIntDigits (Pkg.convertNumber (capGet x.2.caps 1)) with
  | some n => decide (1 ≤ n ∧ n ≤ 50)
  | none => false

/-- The `(start_pos, end_pos)` pairs `buildSubchapters` assigns, before
the range filter. -/
def pairsOf (html : List Char) : List (String × PyMatch) → List (Nat × Nat)
  | [] => []
  | (_, m) :: rest => (m.mstart, endPosOf html rest) :: pairsOf html rest

/-- Adjacent-pair chaining over `(start, end)` pairs. -/
def pairChainB : List (Nat × Nat) → Bool
  | a :: b :: t => (a.2 == b.1) && pairChainB (b :: t)
  | _ => true

/-- Chapter markup with a retained marker (`1`) followed by a discarded
marker (`0`): the discarded match still bounds the previous span. -/
def exC1bad : List Char :=
  "<span class=\"gfont\">1</span><span class=\"gfont\">0</span>x".data

/-- Chapter markup whose single detected marker (value 2) sits after
leading content. -/
def exC1good : List Char := "x<span class=\"gfont\">2</span>y".data

def exC8zero : List Char := "<span class=\"gfont\">0</span>".data

def exC8fiftyone : List Char := "<span class=\"gfont\">51</span>".data

/-- A normalized text (one long paragraph with a trailing space before the
separator, then a short paragraph) that the Chunk Splitter does not
round-trip: the space is trimmed away. -/
def exC3 : List Char :=
  List.replicate 15001 'a' ++ ' ' :: '\n' :: '\n' :: ['b']

/-- A single-paragraph chapter text longer than the split threshold. -/
def exC4 : List Char := List.replicate 18001 'a'

/-- Two well-formed paragraphs jointly exceeding the split threshold. -/
def psC4 : List (List Char) := [List.replicate 15000 'a', List.replicate 8447 'b']

/-- A package state with only `toc.ncx` on disk: no navigation documents,
and no spine content file exists. -/
def envOnlyNcx : Pkg.NavEnv :=
  ⟨none, none, none,
   some (.ok [⟨some "第一章".data, some "c1.html".data⟩]),
   [⟨"c1.html".data, "application/xhtml+xml".data, false, none, none⟩]⟩

/-- A package state with both `nav.xhtml` (yielding one marker) and
`toc.ncx`. -/
def envBothNav : Pkg.NavEnv :=
  ⟨some (.ok [⟨some "p.html".data, some "プロローグ".data⟩]), none, none,
   some (.ok [⟨some "第一章".data, some "c1.html".data⟩]),
   []⟩

/-- A package state whose `nav.xhtml` exists but fails to parse, with an
NCX behind it. -/
def envNavErr : Pkg.NavEnv :=
  ⟨some (.error "not well-formed"), none, none,
   some (.ok [⟨some "第一章".data, some "c1.html".data⟩]),
   []⟩

/-- A spine content document containing the literal `CONTENTS` and one
chapter-like link.  Its content is not a single well-formed XML element
(there is text before the root), so `ET.fromstring` raises and extraction
takes the regex fallback: `xmlParse = none`. -/
def itemC5 : Pkg.SpineItem :=
  ⟨"toc.xhtml".data, "application/xhtml+xml".data, true,
   some "CONTENTS <a href=\"c1.html\">第一章</a>".data, none⟩

/-- A spine content document with neither `CONTENTS` nor three
chapter-like links (it has one). -/
def itemC5rej : Pkg.SpineItem :=
  ⟨"body.xhtml".data, "application/xhtml+xml".data, true,
   some "<a href=\"c1.html\">第一章</a> plain text".data, none⟩

/-- A spine with 1000 content items; the last one is `f.html`, at spine
index 999 — the same value as the not-found sentinel sort key. -/
def spineC6 : List Pkg.SpineItem :=
  List.replicate 999 ⟨"x.html".data, "application/xhtml+xml".data, false, none, none⟩ ++
    [⟨"f.html".data, "application/xhtml+xml".data, false, none, none⟩]

/-- A marker whose target is in no spine (`nope.html`). -/
def mC6notFound : Pkg.ChapterMarker :=
  ⟨"lost".data, "nope.html".data, none, "nope.html".data⟩

/-- A marker targeting the spine item at index 999. -/
def mC6found : Pkg.ChapterMarker :=
  ⟨"found".data, "f.html".data, none, "f.html".data⟩

/-- A small spine whose second item is `OEBPS/ch01.html`. -/
def spineC7 : List Pkg.SpineItem :=
  [⟨"cover.html".data, "application/xhtml+xml".data, true, none, none⟩,
   ⟨"OEBPS/ch01.html".data, "application/xhtml+xml".data, true, none, none⟩,
   ⟨"c2.html".data, "application/xhtml+xml".data, true, none, none⟩]

/-! ## Supporting lemmas -/

/-- When its range filter keeps every match, `buildSubchapters` assigns
exactly the `pairsOf` spans. -/
theorem buildSubchapters_pairs (html : List Char) :
    ∀ ms : List (String × PyMatch), (∀ x ∈ ms, markerKeptB x = true) →
      (Pkg.buildSubchapters html ms).map (fun s => (s.start_pos, s.end_pos)) =
        pairsOf html ms := by
  intro ms
  induction ms with
  | nil => intro _; rfl
  | cons x rest ih =>
    intro h
    obtain ⟨pt, m⟩ := x
    have hx := h _ (List.mem_cons_self _ _)
    have hrest := fun y hy => h y (List.mem_cons_of_mem _ hy)
    unfold markerKeptB at hx
    unfold Pkg.buildSubchapters
    cases heq : pyIntDigits (Pkg.convertNumber (capGet m.caps 1)) with
    | none => rw [heq] at hx; simp at hx
    | some n =>
      rw [heq] at hx
      simp only [decide_eq_true_eq] at hx
      simp only [heq]
      have hcond : ¬ (n < 1 ∨ n > 50) := by omega
      rw [if_neg hcond]
      simp only [List.map_cons, ih hrest, pairsOf]

/-- The `pairsOf` spans are chained: each span's end is the next span's
start. -/
theorem pairChainB_pairsOf (html : List Char) :
    ∀ ms : List (String × PyMatch), pairChainB (pairsOf html ms) = true := by
  intro ms
  induction ms with
  | nil => rfl
  | cons x rest ih =>
    obtain ⟨pt, m⟩ := x
    cases rest with
    | nil => rfl
    | cons y r2 =>
      obtain ⟨pt2, m2⟩ := y
      simp only [pairsOf, endPosOf, pairChainB, Bool.and_eq_true, beq_iff_eq]
      refine ⟨trivial, ?_⟩
      simpa [pairsOf] using ih

/-- The last `pairsOf` span ends at the markup length. -/
theorem pairsOf_last (html : List Char) :
    ∀ ms : List (String × PyMatch), ms ≠ [] →
      (pairsOf html ms).getLast?.map Prod.snd = some html.length := by
  intro ms
  induction ms with
  | nil => intro h; simp at h
  | cons x rest ih =>
    intro _
    obtain ⟨pt, m⟩ := x
    cases rest with
    | nil => rfl
    | cons y r2 =>
      have := ih (by simp)
      simpa [pairsOf, List.getLast?_cons_cons] using this

/-- Chaining of subchapters is chaining of their `(start, end)` pairs. -/
theorem spansChainB_map (l : List Pkg.Subchapter) :
    spansChainB l = pairChainB (l.map (fun s => (s.start_pos, s.end_pos))) := by
  induction l with
  | nil => rfl
  | cons a t ih =>
    cases t with
    | nil => rfl
    | cons b t2 =>
      simp only [spansChainB, pairChainB, List.map_cons, ih]

/-- Chaining only reads the head's `end_pos`, so heads with equal ends are
interchangeable. -/
theorem spansChainB_cons_congr (a b : Pkg.Subchapter) (t : List Pkg.Subchapter)
    (h : a.end_pos = b.end_pos) : spansChainB (a :: t) = spansChainB (b :: t) := by
  cases t with
  | nil => rfl
  | cons c t2 => simp [spansChainB, h]

/-- Every subchapter surviving `buildSubchapters` has its converted numeral
in `[1, 50]`. -/
theorem mem_buildSubchapters_range (html : List Char) :
    ∀ ms : List (String × PyMatch), ∀ s ∈ Pkg.buildSubchapters html ms,
      ∃ n, pyIntDigits s.number = some n ∧ 1 ≤ n ∧ n ≤ 50 := by
  intro ms
  induction ms with
  | nil => intro s hs; simp [Pkg.buildSubchapters] at hs
  | cons x rest ih =>
    intro s hs
    obtain ⟨pt, m⟩ := x
    unfold Pkg.buildSubchapters at hs
    cases heq : pyIntDigits (Pkg.convertNumber (capGet m.caps 1)) with
    | none => rw [heq] at hs; dsimp only at hs; exact ih s hs
    | some n =>
      rw [heq] at hs
      dsimp only at hs
      by_cases hc : n < 1 ∨ n > 50
      · rw [if_pos hc] at hs
        exact ih s hs
      · rw [if_neg hc] at hs
        rw [List.mem_cons] at hs
        rcases hs with hs | hs
        · subst hs
          exact ⟨n, heq, by omega⟩
        · exact ih s hs

/-- The first-span adjustment of `find_subchapters_in_html` changes no
`number` field: every returned subchapter shares its numeral with a
subchapter built by the loop. -/
theorem mem_find_subchapters_number (html : List Char) :
    ∀ s ∈ Pkg.find_subchapters_in_html html,
      ∃ s', s' ∈ Pkg.buildSubchapters html (Pkg.subchapterMatches html) ∧
        s.number = s'.number := by
  intro s hs
  unfold Pkg.find_subchapters_in_html at hs
  cases hb : Pkg.buildSubchapters html (Pkg.subchapterMatches html) with
  | nil => rw [hb] at hs; simp at hs
  | cons s0 rest =>
    rw [hb] at hs
    cases hm : Pkg.subchapterMatches html with
    | nil =>
      rw [hm] at hs
      dsimp only at hs
      rw [List.mem_cons] at hs
      rcases hs with hs | hs
      · exact ⟨s0, List.mem_cons_self _ _, by rw [hs]⟩
      · exact ⟨s, List.mem_cons_of_mem _ hs, rfl⟩
    | cons x ms' =>
      obtain ⟨pt0, m0⟩ := x
      rw [hm] at hs
      dsimp only at hs
      by_cases hpos : 0 < m0.mstart
      · rw [if_pos hpos, List.mem_cons] at hs
        rcases hs with hs | hs
        · exact ⟨s0, List.mem_cons_self _ _, by rw [hs]⟩
        · exact ⟨s, List.mem_cons_of_mem _ hs, rfl⟩
      · rw [if_neg hpos, List.mem_cons] at hs
        rcases hs with hs | hs
        · exact ⟨s0, List.mem_cons_self _ _, by rw [hs]⟩
        · exact ⟨s, List.mem_cons_of_mem _ hs, rfl⟩

/-! ## Claims -/

/-- C1 counterexample: on markup holding a retained marker (`1`) followed
by a discarded marker (`0`), `find_subchapters_in_html` returns one span
ending at the discarded match's offset 28, not at the markup length 57 —
the spans do not partition the markup. -/
theorem C1_subchapter_partition_counterexample :
    ¬ subchapterSpansPartition exC1bad := by decide

/-- C1 (amended): when every detected marker's converted numeral is an
integer in `[1, 50]` — so the range filter discards nothing — the spans
returned by `find_subchapters_in_html` contiguously partition the markup:
the first span starts at 0, each span ends where the next begins, and the
last span ends at the markup length. -/
theorem C1_subchapter_contiguity (html : List Char)
    (hkept : ∀ x ∈ Pkg.subchapterMatches html, markerKeptB x = true) :
    subchapterSpansPartition html := by
  intro hne
  cases hb : Pkg.buildSubchapters html (Pkg.subchapterMatches html) with
  | nil =>
    exfalso
    apply hne
    unfold Pkg.find_subchapters_in_html
    rw [hb]
  | cons s0 rest =>
    cases hm : Pkg.subchapterMatches html with
    | nil =>
      rw [hm] at hb
      simp [Pkg.buildSubchapters] at hb
    | cons x ms' =>
      obtain ⟨pt0, m0⟩ := x
      have h2 : (s0 :: rest).map (fun s => (s.start_pos, s.end_pos)) =
          pairsOf html ((pt0, m0) :: ms') := by
        rw [← hb, ← hm]
        exact buildSubchapters_pairs html _ hkept
      have hpairs := h2
      simp only [pairsOf, List.map_cons, List.cons.injEq, Prod.mk.injEq] at hpairs
      obtain ⟨⟨hs0start, hs0end⟩, hrestmap⟩ := hpairs
      have hfind : Pkg.find_subchapters_in_html html =
          (if 0 < m0.mstart then
            { s0 with start_pos := 0, content := html.take s0.end_pos } :: rest
          else s0 :: rest) := by
        unfold Pkg.find_subchapters_in_html
        rw [hb, hm]
      have hchain0 : spansChainB (s0 :: rest) = true := by
        rw [spansChainB_map, h2]
        exact pairChainB_pairsOf html _
      have hlast0 : (s0 :: rest).getLast?.map Pkg.Subchapter.end_pos = some html.length := by
        have h1 := pairsOf_last html ((pt0, m0) :: ms') (by simp)
        rw [← h2, List.getLast?_map, Option.map_map] at h1
        exact h1
      rw [hfind]
      by_cases hpos : 0 < m0.mstart
      · rw [if_pos hpos]
        refine ⟨rfl, ?_, ?_⟩
        · exact (spansChainB_cons_congr
            { s0 with start_pos := 0, content := html.take s0.end_pos } s0 rest rfl).trans
            hchain0
        · cases rest with
          | nil =>
            simp only [List.getLast?_singleton, Option.map_some] at hlast0 ⊢
            exact hlast0
          | cons r rt =>
            rw [List.getLast?_cons_cons] at hlast0 ⊢
            exact hlast0
      · rw [if_neg hpos]
        refine ⟨?_, hchain0, hlast0⟩
        have : s0.start_pos = 0 := by omega
        simp [this]

/-- Witness for C1: markup with one marker (value 2) sitting after leading
content satisfies both the hypothesis and the partition property. -/
theorem C1_subchapter_contiguity_witness :
    (∀ x ∈ Pkg.subchapterMatches exC1good, markerKeptB x = true) ∧
      subchapterSpansPartition exC1good :=
  ⟨by decide, C1_subchapter_contiguity exC1good (by decide)⟩

/-- C8: the full-width digits of `１２` map to ASCII and convert to the
integer 12; every subchapter the Segmenter returns carries a numeral in
`[1, 50]`; and markup whose only detected marker has value 0 or 51 yields
no subchapter at all (silent discard, no error — the function is total). -/
theorem C8_numeral_normalization :
    (Pkg.convertNumber "１２".data = "12".data ∧
     pyIntDigits (Pkg.convertNumber "１２".data) = some 12) ∧
    (∀ html : List Char, ∀ s ∈ Pkg.find_subchapters_in_html html,
      ∃ n, pyIntDigits s.number = some n ∧ 1 ≤ n ∧ n ≤ 50) ∧
    Pkg.find_subchapters_in_html exC8zero = [] ∧
    Pkg.find_subchapters_in_html exC8fiftyone = [] := by
  refine ⟨⟨by decide, by decide⟩, ?_, by decide, by decide⟩
  intro html s hs
  obtain ⟨s', hmem, hnum⟩ := mem_find_subchapters_number html s hs
  obtain ⟨n, hn, h1, h50⟩ := mem_buildSubchapters_range html _ s' hmem
  exact ⟨n, by rw [hnum]; exact hn, h1, h50⟩

/-- Witness for C8's universal part, at the subchapter detected in
`exC1good`. -/
theorem C8_numeral_normalization_witness :
    ∃ n, pyIntDigits (Pkg.Subchapter.number
      ⟨"2".data, 0, 30, exC1good, "pattern2"⟩) = some n ∧ 1 ≤ n ∧ n ≤ 50 :=
  C8_numeral_normalization.2.1 exC1good _ (by decide)

/-- With no spine content file existing on disk, the embedded-TOC fallback
finds nothing. -/
theorem parse_embedded_toc_no_files (items : List Pkg.SpineItem)
    (h : ∀ it ∈ items, it.existsOnDisk = false) :
    Pkg._parse_embedded_toc items = [] := by
  unfold Pkg._parse_embedded_toc
  have hfold : items.foldr
      (fun it acc =>
        if Pkg.isHtmlItem it then
          if it.existsOnDisk then
            match it.content with
            | some content =>
              if Pkg.embeddedAccepts content then
                Pkg._extract_chapter_links it.xmlParse content ++ acc
              else acc
            | none => acc
          else acc
        else acc)
      [] = ([] : List Pkg.ChapterMarker) := by
    induction items with
    | nil => rfl
    | cons it rest ih =>
      have hit := h it (List.mem_cons_self _ _)
      have hrest := fun y hy => h y (List.mem_cons_of_mem _ hy)
      simp only [List.foldr_cons, ih hrest, hit]
      by_cases hh : Pkg.isHtmlItem it <;> simp [hh, hit]
  rw [hfold]
  rfl

/-- The embedded fallback's trace is the single embedded event. -/
theorem navStep4_trace (env : Pkg.NavEnv) :
    (Pkg.navStep4 env).2 = [.embeddedEv] := rfl

/-- The NCX step's trace respects the cascade order. -/
theorem navStep3_trace (env : Pkg.NavEnv) :
    (Pkg.navStep3 env).2.Sublist [.tocNcxEv, .embeddedEv] := by
  unfold Pkg.navStep3
  cases env.tocNcx with
  | none => simp [navStep4_trace]
  | some doc =>
    dsimp only
    by_cases hms : Pkg._parse_toc_ncx doc = []
    · simp only [hms, if_pos rfl]
      simp [navStep4_trace]
    · rw [if_neg hms]
      simp

/-- The legacy-navigation step's trace respects the cascade order. -/
theorem navStep2_trace (env : Pkg.NavEnv) :
    (Pkg.navStep2 env).2.Sublist [.navDocsEv, .tocNcxEv, .embeddedEv] := by
  unfold Pkg.navStep2
  cases env.navDocsBase with
  | some doc =>
    dsimp only
    by_cases hms : Pkg._parse_navigation_xhtml doc = []
    · simp only [hms, if_pos rfl]
      exact List.Sublist.cons₂ _ (navStep3_trace env)
    · rw [if_neg hms]
      simp
  | none =>
    cases env.navDocsItem with
    | some doc =>
      dsimp only
      by_cases hms : Pkg._parse_navigation_xhtml doc = []
      · simp only [hms, if_pos rfl]
        exact List.Sublist.cons₂ _ (navStep3_trace env)
      · rw [if_neg hms]
        simp
    | none => exact List.Sublist.cons _ (navStep3_trace env)

/-- The Resolver's strategy trace is always an in-order selection of
nav.xhtml, navigation-documents, toc.ncx, embedded fallback. -/
theorem parse_navigation_file_trace (env : Pkg.NavEnv) :
    (Pkg.parse_navigation_file env).2.Sublist
      [.navXhtmlEv, .navDocsEv, .tocNcxEv, .embeddedEv] := by
  unfold Pkg.parse_navigation_file
  cases env.navXhtml with
  | some doc =>
    dsimp only
    by_cases hms : Pkg._parse_navigation_xhtml doc = []
    · simp only [hms, if_pos rfl]
      exact List.Sublist.cons₂ _ (navStep2_trace env)
    · rw [if_neg hms]
      simp
  | none => exact List.Sublist.cons _ (navStep2_trace env)

/-- C2: the Navigation Resolver tries its strategies in the fixed order
nav.xhtml, navigation-documents.xhtml, toc.ncx, embedded fallback (the
trace is always an in-order selection); when nav.xhtml yields at least
one marker those markers are returned and the NCX is never parsed; and
for a package whose base directory contains only toc.ncx (no navigation
documents, no content file on disk) the Resolver's output equals parsing
that NCX directly. -/
theorem C2_navigation_cascade :
    (∀ env : Pkg.NavEnv, (Pkg.parse_navigation_file env).2.Sublist
        [.navXhtmlEv, .navDocsEv, .tocNcxEv, .embeddedEv]) ∧
    (∀ (env : Pkg.NavEnv) (doc : Except String (List Pkg.RawLink)),
        env.navXhtml = some doc → Pkg._parse_navigation_xhtml doc ≠ [] →
        (Pkg.parse_navigation_file env).1 = Pkg._parse_navigation_xhtml doc ∧
        Pkg.StratEv.tocNcxEv ∉ (Pkg.parse_navigation_file env).2) ∧
    (∀ (env : Pkg.NavEnv) (doc : Except String (List Pkg.NavPoint)),
        env.navXhtml = none → env.navDocsBase = none → env.navDocsItem = none →
        env.tocNcx = some doc →
        (∀ it ∈ env.spine_items, it.existsOnDisk = false) →
        (Pkg.parse_navigation_file env).1 = Pkg._parse_toc_ncx doc) := by
  refine ⟨parse_navigation_file_trace, ?_, ?_⟩
  · intro env doc hdoc hne
    unfold Pkg.parse_navigation_file
    rw [hdoc]
    dsimp only
    rw [if_neg hne]
    exact ⟨rfl, by simp⟩
  · intro env doc h1 h2 h3 h4 h5
    unfold Pkg.parse_navigation_file
    rw [h1]
    unfold Pkg.navStep2
    rw [h2, h3]
    unfold Pkg.navStep3
    rw [h4]
    dsimp only
    by_cases hms : Pkg._parse_toc_ncx doc = []
    · rw [if_pos hms, hms]
      unfold Pkg.navStep4
      exact parse_embedded_toc_no_files env.spine_items h5
    · rw [if_neg hms]

/-- Witness for C2: the nav-takes-precedence case at `envBothNav` and the
only-NCX case at `envOnlyNcx`. -/
theorem C2_navigation_cascade_witness :
    ((Pkg.parse_navigation_file envBothNav).1 =
        Pkg._parse_navigation_xhtml (.ok [⟨some "p.html".data, some "プロローグ".data⟩]) ∧
      Pkg.StratEv.tocNcxEv ∉ (Pkg.parse_navigation_file envBothNav).2) ∧
    (Pkg.parse_navigation_file envOnlyNcx).1 =
      Pkg._parse_toc_ncx (.ok [⟨some "第一章".data, some "c1.html".data⟩]) := by
  constructor
  · exact C2_navigation_cascade.2.1 envBothNav _ rfl (by decide)
  · exact C2_navigation_cascade.2.2 envOnlyNcx _ rfl rfl rfl rfl (by decide)

/-- C9: a navigation document or NCX that fails to parse yields zero
markers (the exception is absorbed) and the cascade moves to the next
strategy (same markers and the failing strategy's event prepended); a
package description that fails to parse propagates its error unchanged,
failing the book. -/
theorem C9_parse_error_recovery :
    (∀ e : String, Pkg._parse_navigation_xhtml (.error e) = [] ∧
        Pkg._parse_toc_ncx (.error e) = []) ∧
    (∀ (env : Pkg.NavEnv) (e : String), env.navXhtml = some (.error e) →
        (Pkg.parse_navigation_file env).1 = (Pkg.navStep2 env).1 ∧
        (Pkg.parse_navigation_file env).2 = .navXhtmlEv :: (Pkg.navStep2 env).2) ∧
    (∀ (env : Pkg.NavEnv) (e : String), env.tocNcx = some (.error e) →
        (Pkg.navStep3 env).1 = (Pkg.navStep4 env).1 ∧
        (Pkg.navStep3 env).2 = .tocNcxEv :: (Pkg.navStep4 env).2) ∧
    (∀ (fs : List Char → Bool) (base : List Char) (e : String),
        Pkg.parse_opf_file fs base (.error e) = .error e) := by
  refine ⟨fun e => ⟨rfl, rfl⟩, ?_, ?_, fun fs base e => rfl⟩
  · intro env e hdoc
    unfold Pkg.parse_navigation_file
    rw [hdoc]
    dsimp only
    rw [if_pos (show Pkg._parse_navigation_xhtml (.error e) = [] from rfl)]
    exact ⟨rfl, rfl⟩
  · intro env e hdoc
    unfold Pkg.navStep3
    rw [hdoc]
    dsimp only
    rw [if_pos (show Pkg._parse_toc_ncx (.error e) = [] from rfl)]
    exact ⟨rfl, rfl⟩

/-- Witness for C9 at a package whose `nav.xhtml` fails to parse. -/
theorem C9_parse_error_recovery_witness :
    (Pkg.parse_navigation_file envNavErr).1 = (Pkg.navStep2 envNavErr).1 ∧
      (Pkg.parse_navigation_file envNavErr).2 =
        .navXhtmlEv :: (Pkg.navStep2 envNavErr).2 :=
  C9_parse_error_recovery.2.1 envNavErr "not well-formed" rfl

/-- C5 (amended): a spine content document is accepted as an embedded
table of contents only if it contains the literal `CONTENTS` or at least
three chapter-like links; documents failing both tests contribute no
chapter markers. -/
theorem C5_embedded_acceptance (items : List Pkg.SpineItem)
    (h : ∀ it ∈ items, ∀ c, it.content = some c →
        containsL "CONTENTS".data c = false ∧ Pkg._has_chapter_links c = false) :
    Pkg._parse_embedded_toc items = [] := by
  unfold Pkg._parse_embedded_toc
  have hfold : items.foldr
      (fun it acc =>
        if Pkg.isHtmlItem it then
          if it.existsOnDisk then
            match it.content with
            | some content =>
              if Pkg.embeddedAccepts content then
                Pkg._extract_chapter_links it.xmlParse content ++ acc
              else acc
            | none => acc
          else acc
        else acc)
      [] = ([] : List Pkg.ChapterMarker) := by
    induction items with
    | nil => rfl
    | cons it rest ih =>
      have hit := h it (List.mem_cons_self _ _)
      have hrest := fun y hy => h y (List.mem_cons_of_mem _ hy)
      simp only [List.foldr_cons, ih hrest]
      by_cases hh : Pkg.isHtmlItem it
      · by_cases he : it.existsOnDisk
        · cases hc : it.content with
          | none => simp [hh, he, hc]
          | some c =>
            have := hit c hc
            have hacc : Pkg.embeddedAccepts c = false := by
              unfold Pkg.embeddedAccepts
              simp [this.1, this.2]
            simp [hh, he, hc, hacc]
        · simp [hh, he]
      · simp [hh]
  rw [hfold]
  rfl

/-- Witness for C5 at a document with one chapter-like link and no
`CONTENTS`. -/
theorem C5_embedded_acceptance_witness :
    Pkg._parse_embedded_toc [itemC5rej] = [] :=
  C5_embedded_acceptance [itemC5rej] (by decide)

/-- C5 counterexample: a document containing the literal `CONTENTS` is
accepted with fewer than three matching links (`_has_chapter_links` is
false on it) and contributes its single chapter marker. -/
theorem C5_embedded_counterexample :
    Pkg._has_chapter_links "CONTENTS <a href=\"c1.html\">第一章</a>".data = false ∧
    itemC5.content = some "CONTENTS <a href=\"c1.html\">第一章</a>".data ∧
    Pkg._parse_embedded_toc [itemC5] =
      [⟨"第一章".data, "c1.html".data, none, "c1.html".data⟩] := by
  refine ⟨by decide, by decide, by decide⟩

/-- A stable insertion permutes: the inserted element joins the list. -/
theorem insertByKey_perm {α : Type} (key : α → Nat) (x : α) (l : List α) :
    (insertByKey key x l).Perm (x :: l) := by
  induction l with
  | nil => exact List.Perm.refl _
  | cons a t ih =>
    unfold insertByKey
    by_cases h : key a < key x
    · rw [if_pos h]
      exact (List.Perm.cons a ih).trans (List.Perm.swap _ _ _)
    · rw [if_neg h]

/-- The stable sort is a permutation. -/
theorem insSortBy_perm {α : Type} (key : α → Nat) (l : List α) :
    (insSortBy key l).Perm l := by
  induction l with
  | nil => exact List.Perm.refl _
  | cons a t ih =>
    exact (insertByKey_perm key a _).trans (List.Perm.cons a ih)

theorem mem_insertByKey {α : Type} (key : α → Nat) (x y : α) (l : List α) :
    y ∈ insertByKey key x l ↔ y = x ∨ y ∈ l := by
  rw [(insertByKey_perm key x l).mem_iff, List.mem_cons]

/-- Stable insertion preserves key-sortedness. -/
theorem insertByKey_sorted {α : Type} (key : α → Nat) (x : α) (l : List α)
    (h : l.Pairwise (fun a b => key a ≤ key b)) :
    (insertByKey key x l).Pairwise (fun a b => key a ≤ key b) := by
  induction l with
  | nil => simp [insertByKey]
  | cons a t ih =>
    rw [List.pairwise_cons] at h
    unfold insertByKey
    by_cases hk : key a < key x
    · rw [if_pos hk]
      rw [List.pairwise_cons]
      constructor
      · intro y hy
        rcases (mem_insertByKey key x y t).mp hy with rfl | hy
        · omega
        · exact h.1 y hy
      · exact ih h.2
    · rw [if_neg hk]
      rw [List.pairwise_cons]
      constructor
      · intro y hy
        rw [List.mem_cons] at hy
        rcases hy with rfl | hy
        · omega
        · have := h.1 y hy
          omega
      · exact List.Pairwise.cons h.1 h.2

/-- The stable sort is key-sorted. -/
theorem insSortBy_sorted {α : Type} (key : α → Nat) (l : List α) :
    (insSortBy key l).Pairwise (fun a b => key a ≤ key b) := by
  induction l with
  | nil => simp [insSortBy]
  | cons a t ih => exact insertByKey_sorted key a _ ih

/-- An element is inserted before every later element of its own key. -/
theorem filter_insertByKey_eq {α : Type} (key : α → Nat) (x : α) (l : List α) (k : Nat)
    (hx : key x = k) :
    (insertByKey key x l).filter (fun m => key m == k) =
      x :: l.filter (fun m => key m == k) := by
  induction l with
  | nil => simp [insertByKey, List.filter, hx]
  | cons a t ih =>
    unfold insertByKey
    by_cases hk : key a < key x
    · rw [if_pos hk]
      have ha : (key a == k) = false := by
        simp only [beq_eq_false_iff_ne, ne_eq]
        omega
      simp only [List.filter_cons, ha, ih]
      simp
    · rw [if_neg hk]
      simp only [List.filter_cons]
      simp [hx]

/-- Insertion does not disturb the elements of other keys. -/
theorem filter_insertByKey_ne {α : Type} (key : α → Nat) (x : α) (l : List α) (k : Nat)
    (hx : key x ≠ k) :
    (insertByKey key x l).filter (fun m => key m == k) =
      l.filter (fun m => key m == k) := by
  induction l with
  | nil =>
    simp only [insertByKey, List.filter]
    have : (key x == k) = false := by simp [hx]
    simp [this]
  | cons a t ih =>
    unfold insertByKey
    by_cases hk : key a < key x
    · rw [if_pos hk]
      simp only [List.filter_cons, ih]
    · rw [if_neg hk]
      simp only [List.filter_cons]
      simp [hx]

/-- Stability of the sort: each key class keeps its input order. -/
theorem filter_insSortBy {α : Type} (key : α → Nat) (l : List α) (k : Nat) :
    (insSortBy key l).filter (fun m => key m == k) =
      l.filter (fun m => key m == k) := by
  induction l with
  | nil => rfl
  | cons a t ih =>
    unfold insSortBy
    by_cases hk : key a = k
    · rw [filter_insertByKey_eq key a _ k hk]
      simp only [List.filter_cons, hk, beq_self_eq_true, ih]
      simp
    · rw [filter_insertByKey_ne key a _ k hk]
      simp only [List.filter_cons, ih]
      have : (key a == k) = false := by simp [hk]
      simp [this]

/-- The dedup loop selects a sublist of the pooled markers. -/
theorem dedupMarkers_sublist :
    ∀ (l : List Pkg.ChapterMarker) (seen : List (List Char × Option (List Char))),
      (Pkg.dedupMarkers seen l).Sublist l := by
  intro l
  induction l with
  | nil => intro seen; exact List.Sublist.refl _
  | cons mk t ih =>
    intro seen
    unfold Pkg.dedupMarkers
    by_cases h : (mk.file, mk.anchor) ∈ seen
    · rw [if_pos h]
      exact (ih seen).cons mk
    · rw [if_neg h]
      exact (ih _).cons₂ mk

/-- Every surviving marker is the *first* occurrence of its
`(file, anchor)` key among the pooled markers. -/
theorem mem_dedupMarkers :
    ∀ (l : List Pkg.ChapterMarker) (seen : List (List Char × Option (List Char)))
      (m : Pkg.ChapterMarker), m ∈ Pkg.dedupMarkers seen l →
      (m.file, m.anchor) ∉ seen ∧
      l.find? (fun x => (x.file, x.anchor) == (m.file, m.anchor)) = some m := by
  intro l
  induction l with
  | nil => intro seen m hm; simp [Pkg.dedupMarkers] at hm
  | cons mk t ih =>
    intro seen m hm
    unfold Pkg.dedupMarkers at hm
    by_cases h : (mk.file, mk.anchor) ∈ seen
    · rw [if_pos h] at hm
      obtain ⟨hnot, hfind⟩ := ih seen m hm
      have hne : ((mk.file, mk.anchor) == (m.file, m.anchor)) = false := by
        simp only [beq_eq_false_iff_ne, ne_eq]
        intro heq
        exact hnot (heq ▸ h)
      refine ⟨hnot, ?_⟩
      rw [List.find?_cons, hne]
      exact hfind
    · rw [if_neg h, List.mem_cons] at hm
      rcases hm with rfl | hm
      · refine ⟨h, ?_⟩
        rw [List.find?_cons]
        simp
      · obtain ⟨hnot, hfind⟩ := ih _ m hm
        rw [List.mem_cons] at hnot
        push_neg at hnot
        have hne : ((mk.file, mk.anchor) == (m.file, m.anchor)) = false := by
          simp only [beq_eq_false_iff_ne, ne_eq]
          intro heq
          exact hnot.1 heq.symm
        refine ⟨hnot.2, ?_⟩
        rw [List.find?_cons, hne]
        exact hfind

/-- The dedup loop leaves no duplicate `(file, anchor)` keys. -/
theorem dedupMarkers_keys_nodup :
    ∀ (l : List Pkg.ChapterMarker) (seen : List (List Char × Option (List Char))),
      ((Pkg.dedupMarkers seen l).map (fun m => (m.file, m.anchor))).Nodup := by
  intro l
  induction l with
  | nil => intro seen; simp [Pkg.dedupMarkers]
  | cons mk t ih =>
    intro seen
    unfold Pkg.dedupMarkers
    by_cases h : (mk.file, mk.anchor) ∈ seen
    · rw [if_pos h]; exact ih seen
    · rw [if_neg h]
      simp only [List.map_cons, List.nodup_cons]
      refine ⟨?_, ih _⟩
      intro hmem
      rw [List.mem_map] at hmem
      obtain ⟨m', hm', hkey⟩ := hmem
      have := (mem_dedupMarkers t _ m' hm').1
      rw [← hkey] at this
      exact this (List.mem_cons_self _ _)

/-- A found spine-order key is a genuine spine index. -/
theorem spineOrderGet_lt (spine : List Pkg.SpineItem) (f : List Char) (i : Nat)
    (h : Pkg.spineOrderGet spine f = some i) : i < spine.length := by
  unfold Pkg.spineOrderGet at h
  cases hf : ((spine.enum.map (fun p => (pathName p.2.href, p.1))).reverse).find?
      (fun e => e.1 == f) with
  | none => rw [hf] at h; simp at h
  | some e =>
    rw [hf] at h
    have h2 : e.2 = i := by simpa using h
    have hmem := List.mem_of_find?_eq_some hf
    rw [List.mem_reverse, List.mem_map] at hmem
    obtain ⟨p, hp, hpe⟩ := hmem
    have hget := List.mem_enum_iff_getElem?.mp hp
    have hlt : p.1 < spine.length := (List.getElem?_eq_some.mp hget).1
    have hp2 : e.2 = p.1 := by rw [← hpe]
    omega

/-- C6 (amended): `_deduplicate_and_sort_markers` keeps the first marker
of each `(file, anchor)` pair (a sublist with distinct keys, each the
`find?`-first occurrence) and stably sorts the result by spine-order key;
provided the spine has at most 999 items, every marker whose target is
not found in the spine sorts after all found markers, and each key
class — in particular the not-found markers — keeps its input order. -/
theorem C6_dedup_and_spine_sort (spine : List Pkg.SpineItem)
    (markers : List Pkg.ChapterMarker) (hlen : spine.length ≤ 999) :
    (Pkg._deduplicate_and_sort_markers spine markers).Perm
        (Pkg.dedupMarkers [] markers) ∧
    (Pkg._deduplicate_and_sort_markers spine markers).Pairwise
        (fun a b => Pkg.sortKeyOf spine a ≤ Pkg.sortKeyOf spine b) ∧
    (Pkg._deduplicate_and_sort_markers spine markers).Pairwise
        (fun a b => Pkg.spineOrderGet spine a.file = none →
          Pkg.spineOrderGet spine b.file = none) ∧
    (∀ k, (Pkg._deduplicate_and_sort_markers spine markers).filter
        (fun m => Pkg.sortKeyOf spine m == k) =
      (Pkg.dedupMarkers [] markers).filter (fun m => Pkg.sortKeyOf spine m == k)) ∧
    (Pkg.dedupMarkers [] markers).Sublist markers ∧
    ((Pkg.dedupMarkers [] markers).map (fun m => (m.file, m.anchor))).Nodup ∧
    (∀ m ∈ Pkg.dedupMarkers [] markers,
      markers.find? (fun x => (x.file, x.anchor) == (m.file, m.anchor)) = some m) := by
  have hsorted := insSortBy_sorted (Pkg.sortKeyOf spine) (Pkg.dedupMarkers [] markers)
  refine ⟨insSortBy_perm _ _, hsorted, ?_,
    fun k => filter_insSortBy _ _ k, dedupMarkers_sublist markers [],
    dedupMarkers_keys_nodup markers [],
    fun m hm => (mem_dedupMarkers markers [] m hm).2⟩
  refine hsorted.imp ?_
  intro a b hab
  intro hnf
  cases hsb : Pkg.spineOrderGet spine b.file with
  | none => rfl
  | some i =>
    have hi := spineOrderGet_lt spine b.file i hsb
    have ha : Pkg.sortKeyOf spine a = 999 := by
      unfold Pkg.sortKeyOf
      rw [hnf]
      rfl
    have hbk : Pkg.sortKeyOf spine b = i := by
      unfold Pkg.sortKeyOf
      rw [hsb]
      rfl
    omega

/-- Witness for C6 on a three-item spine with one found and one not-found
marker. -/
theorem C6_dedup_and_spine_sort_witness :
    (Pkg._deduplicate_and_sort_markers spineC7 [mC6found, mC6notFound]).Pairwise
      (fun a b => Pkg.spineOrderGet spineC7 a.file = none →
        Pkg.spineOrderGet spineC7 b.file = none) :=
  (C6_dedup_and_spine_sort spineC7 [mC6found, mC6notFound] (by decide)).2.2.1

set_option maxRecDepth 100000 in
/-- C6 counterexample: on a 1000-item spine, a found marker at spine index
999 ties with the not-found sentinel key 999, so the not-found marker
stays *before* a found marker instead of sorting after all found
markers. -/
theorem C6_sentinel_counterexample :
    Pkg.spineOrderGet spineC6 mC6notFound.file = none ∧
    Pkg.spineOrderGet spineC6 mC6found.file = some 999 ∧
    Pkg._deduplicate_and_sort_markers spineC6 [mC6notFound, mC6found] =
      [mC6notFound, mC6found] := by
  refine ⟨by decide, by decide, by decide⟩

/-- Characterization of `findIdx?` by the first index satisfying the
predicate (with the search's base offset). -/
theorem findIdx?_first {α : Type} (p : α → Bool) :
    ∀ (l : List α) (n base : Nat) (it : α),
      l.get? n = some it → p it = true →
      (∀ j it2, j < n → l.get? j = some it2 → p it2 = false) →
      l.findIdx? p base = some (base + n) := by
  intro l
  induction l with
  | nil => intro n base it h; simp at h
  | cons a t ih =>
    intro n base it hget hit hfirst
    rw [List.findIdx?_cons]
    cases n with
    | zero =>
      simp only [List.get?_cons_zero, Option.some.injEq] at hget
      subst hget
      rw [if_pos hit]
      simp
    | succ n' =>
      have ha : p a = false := hfirst 0 a (Nat.succ_pos _) rfl
      rw [ha]
      simp only [Bool.false_eq_true, if_false]
      rw [List.get?_cons_succ] at hget
      have := ih n' (base + 1) it hget hit
        (fun j it2 hj hg => hfirst (j + 1) it2 (by omega) (by simpa using hg))
      rw [this]
      congr 1
      omega

/-- C7: marker targets and spine hrefs are compared by filename only — for
every spine whose first HTML item named `ch01.html` is an item with href
`OEBPS/ch01.html`, a marker targeting `xhtml/ch01.html` (normalized by
`create_chapter_text_files`) resolves to exactly that spine item: the
`xhtml/` prefix is stripped on the marker side, `Path(href).name` strips
`OEBPS/` on the spine side, the start-index search finds the item, and it
heads the chapter's file list. -/
theorem C7_filename_only_comparison (spine : List Pkg.SpineItem) (n : Nat)
    (it : Pkg.SpineItem)
    (hget : spine.get? n = some it)
    (hhtml : Pkg.isHtmlItem it = true)
    (hhref : it.href = "OEBPS/ch01.html".data)
    (hfirst : ∀ j it2, j < n → spine.get? j = some it2 →
        (Pkg.isHtmlItem it2 && (pathName it2.href == "ch01.html".data)) = false) :
    Pkg.markerStartFile "xhtml/ch01.html".data = "ch01.html".data ∧
    pathName "OEBPS/ch01.html".data = "ch01.html".data ∧
    Pkg.findStartIndex spine (Pkg.markerStartFile "xhtml/ch01.html".data) = some n ∧
    (Pkg.get_chapter_files spine (Pkg.markerStartFile "xhtml/ch01.html".data)
        none).head? = some it := by
  have hms : Pkg.markerStartFile "xhtml/ch01.html".data = "ch01.html".data := by decide
  have hpn : pathName "OEBPS/ch01.html".data = "ch01.html".data := by decide
  have hpred : (Pkg.isHtmlItem it && (pathName it.href == "ch01.html".data)) = true := by
    rw [hhref, hpn, hhtml]
    simp
  have hidx : Pkg.findStartIndex spine (Pkg.markerStartFile "xhtml/ch01.html".data)
      = some n := by
    rw [hms]
    unfold Pkg.findStartIndex
    have := findIdx?_first
      (fun it2 => Pkg.isHtmlItem it2 && (pathName it2.href == "ch01.html".data))
      spine n 0 it hget hpred hfirst
    simpa using this
  refine ⟨hms, hpn, hidx, ?_⟩
  unfold Pkg.get_chapter_files
  rw [hidx]
  dsimp only
  have hlt : n < spine.length := by
    by_contra hge
    rw [List.get?_eq_none.mpr (by omega)] at hget
    exact Option.noConfusion hget
  have hspn : spine[n] = it := by
    obtain ⟨h, hg⟩ := List.get?_eq_some.mp hget
    simpa [List.get_eq_getElem] using hg
  have hdrop : spine.drop n = it :: spine.drop (n + 1) := by
    rw [List.drop_eq_getElem_cons hlt, hspn]
  have htake : (spine.drop n).take (spine.length - n) = spine.drop n := by
    rw [← List.length_drop, List.take_length]
  rw [htake, hdrop, List.filter_cons, hhtml]
  simp

/-- Witness for C7 on the spine `[cover.html, OEBPS/ch01.html, c2.html]`. -/
theorem C7_filename_only_comparison_witness :
    Pkg.findStartIndex spineC7 (Pkg.markerStartFile "xhtml/ch01.html".data) = some 1 ∧
    (Pkg.get_chapter_files spineC7 (Pkg.markerStartFile "xhtml/ch01.html".data)
        none).head? =
      some ⟨"OEBPS/ch01.html".data, "application/xhtml+xml".data, true, none, none⟩ := by
  have h := C7_filename_only_comparison spineC7 1
    ⟨"OEBPS/ch01.html".data, "application/xhtml+xml".data, true, none, none⟩
    rfl (by decide) rfl ?_
  · exact ⟨h.2.2.1, h.2.2.2⟩
  · intro j it2 hj hg
    have hj0 : j = 0 := by omega
    subst hj0
    have h0 : spineC7.get? 0 =
        some ⟨"cover.html".data, "application/xhtml+xml".data, true, none, none⟩ := rfl
    rw [h0] at hg
    have := Option.some.inj hg
    subst this
    decide

/-- C10: the HTML Normalizer shipped in the two source files is the same
function — `process_furigana` followed by `html_to_text` of the
stand-alone script agrees with the packaged script's on every markup
string and furigana mode.  (The two bodies are textually identical in the
sources, and their embeddings are definitionally equal.) -/
theorem C10_html_normalizer_equal :
    ∀ (markup : List Char) (show_furigana : Bool),
      Root.process_furigana show_furigana markup =
          Pkg.process_furigana show_furigana markup ∧
        Root.html_to_text show_furigana markup =
          Pkg.html_to_text show_furigana markup :=
  fun _ _ => ⟨rfl, rfl⟩

end EpubSpec


namespace EpubSpec

theorem dropWhile_eq_self_of_head {p : Char → Bool} {l : List Char}
    (h : ∀ c, l.head? = some c → p c = false) : l.dropWhile p = l := by
  cases l with
  | nil => rfl
  | cons c t =>
    rw [List.dropWhile_cons, h c rfl]
    simp

theorem head_false_of_dropWhile_eq_self {p : Char → Bool} {l : List Char}
    (h : l.dropWhile p = l) : ∀ c, l.head? = some c → p c = false := by
  intro c hc
  cases l with
  | nil => simp at hc
  | cons a t =>
    simp only [List.head?_cons, Option.some.injEq] at hc
    subst hc
    by_contra hp
    rw [Bool.not_eq_false] at hp
    rw [List.dropWhile_cons, hp] at h
    simp only [if_true] at h
    have := congrArg List.length h
    simp only [List.length_cons] at this
    have hle := (List.dropWhile_suffix (l := t) p).length_le
    omega

theorem pyStrip_eq_self_of_ends {l : List Char}
    (hh : ∀ c, l.head? = some c → pyWs c = false)
    (hl : ∀ c, l.getLast? = some c → pyWs c = false) : pyStrip l = l := by
  unfold pyStrip
  rw [dropWhile_eq_self_of_head hh]
  rw [dropWhile_eq_self_of_head (by
    intro c hc
    rw [List.head?_reverse] at hc
    exact hl c hc)]
  exact List.reverse_reverse l

theorem pyStrip_eq_self_ends {l : List Char} (h : pyStrip l = l) :
    (∀ c, l.head? = some c → pyWs c = false) ∧
    (∀ c, l.getLast? = some c → pyWs c = false) := by
  unfold pyStrip at h
  have h1 : l.dropWhile pyWs = l := by
    have hlen1 := (List.dropWhile_suffix (l := l) pyWs).length_le
    have hlen2 := (List.dropWhile_suffix (l := (l.dropWhile pyWs).reverse) pyWs).length_le
    have hlen3 : (l.dropWhile pyWs).reverse.length = (l.dropWhile pyWs).length :=
      List.length_reverse _
    have hlen4 := congrArg List.length h
    rw [List.length_reverse] at hlen4
    exact (List.dropWhile_suffix pyWs).eq_of_length (by omega)
  have hhead := head_false_of_dropWhile_eq_self h1
  rw [h1] at h
  have h2 : l.reverse.dropWhile pyWs = l.reverse := by
    have := congrArg List.reverse h
    rw [List.reverse_reverse] at this
    rw [this]
  have hlast := head_false_of_dropWhile_eq_self h2
  refine ⟨hhead, fun c hc => hlast c ?_⟩
  rw [List.head?_reverse]
  exact hc

end EpubSpec

namespace EpubSpec

theorem hasNN_cons_cons (a b : Char) (t : List Char) :
    hasNN (a :: b :: t) = if a = '\n' ∧ b = '\n' then true else hasNN (b :: t) := by
  by_cases h : a = '\n' ∧ b = '\n'
  · obtain ⟨ha, hb⟩ := h
    subst ha
    subst hb
    simp [hasNN]
  · rw [if_neg h]
    conv_lhs => rw [hasNN.eq_def]
    split
    · rename_i heq
      exfalso
      apply h
      injection heq with h1 h2
      injection h2 with h3 h4
      exact ⟨h1, h3⟩
    · rename_i heq
      injection heq with h1 h2
      subst h2
      rfl
    · rename_i heq
      exact absurd heq (by simp)

theorem pySplit2NL_cons_nl_nl (t : List Char) :
    pySplit2NL ('\n' :: '\n' :: t) = [] :: pySplit2NL t := rfl

theorem pySplit2NL_cons_ne (c : Char) (t : List Char)
    (h : ¬(c = '\n' ∧ t.head? = some '\n')) :
    pySplit2NL (c :: t) =
      (match pySplit2NL t with
      | hd :: tl => (c :: hd) :: tl
      | [] => [[c]]) := by
  conv_lhs => rw [pySplit2NL.eq_def]
  split
  · rename_i heq
    exfalso
    apply h
    injection heq with h1 h2
    subst h2
    exact ⟨h1, rfl⟩
  · rename_i heq
    injection heq with h1 h2
    subst h1
    subst h2
    rfl
  · rename_i heq
    exact absurd heq (by simp)

end EpubSpec

namespace EpubSpec

theorem hasNN_cons_false {a : Char} {t : List Char} (h : hasNN (a :: t) = false) :
    hasNN t = false := by
  cases t with
  | nil => rfl
  | cons b t2 =>
    rw [hasNN_cons_cons] at h
    by_cases hc : a = '\n' ∧ b = '\n'
    · rw [if_pos hc] at h
      exact absurd h (by simp)
    · rwa [if_neg hc] at h

theorem pySplit2NL_noNN : ∀ {l : List Char}, hasNN l = false → pySplit2NL l = [l] := by
  intro l
  induction l with
  | nil => intro _; rfl
  | cons c t ih =>
    intro h
    have hcond : ¬(c = '\n' ∧ t.head? = some '\n') := by
      rintro ⟨hc, ht⟩
      cases t with
      | nil => simp at ht
      | cons b t2 =>
        simp only [List.head?_cons, Option.some.injEq] at ht
        rw [hasNN_cons_cons, if_pos ⟨hc, ht⟩] at h
        exact absurd h (by simp)
    rw [pySplit2NL_cons_ne c t hcond, ih (hasNN_cons_false h)]

theorem pySplit2NL_append_sep : ∀ (A B : List Char), hasNN A = false →
    (∀ c, A.getLast? = some c → c ≠ '\n') →
    pySplit2NL (A ++ '\n' :: '\n' :: B) = A :: pySplit2NL B := by
  intro A
  induction A with
  | nil => intro B _ _; simp [pySplit2NL_cons_nl_nl]
  | cons a A' ih =>
    intro B hA hlast
    have hA' : hasNN A' = false := hasNN_cons_false hA
    have hlast' : ∀ c, A'.getLast? = some c → c ≠ '\n' := by
      intro c hc
      apply hlast
      cases A' with
      | nil => simp at hc
      | cons x t => rw [List.getLast?_cons_cons]; exact hc
    have hcond : ¬(a = '\n' ∧ (A' ++ '\n' :: '\n' :: B).head? = some '\n') := by
      rintro ⟨ha, hh⟩
      cases A' with
      | nil => exact hlast a rfl ha
      | cons b t =>
        simp only [List.cons_append, List.head?_cons, Option.some.injEq] at hh
        rw [hasNN_cons_cons, if_pos ⟨ha, hh⟩] at hA
        exact absurd hA (by simp)
    rw [List.cons_append, pySplit2NL_cons_ne _ _ hcond, ih B hA' hlast']

theorem joinNN_cons_cons (p q : List Char) (t : List (List Char)) :
    joinNN (p :: q :: t) = p ++ '\n' :: '\n' :: joinNN (q :: t) := rfl

theorem goodPara_last_ne_nl {p : List Char} (h : goodPara p) :
    ∀ c, p.getLast? = some c → c ≠ '\n' := by
  intro c hc
  have := (pyStrip_eq_self_ends h.2.1).2 c hc
  intro hnl
  subst hnl
  simp [pyWs] at this

theorem pySplit2NL_joinNN : ∀ ps : List (List Char), ps ≠ [] →
    (∀ p ∈ ps, goodPara p) → pySplit2NL (joinNN ps) = ps := by
  intro ps
  induction ps with
  | nil => intro h; exact absurd rfl h
  | cons p rest ih =>
    intro _ hg
    have hp := hg p (List.mem_cons_self _ _)
    have hrest := fun y hy => hg y (List.mem_cons_of_mem _ hy)
    cases rest with
    | nil => exact pySplit2NL_noNN hp.2.2
    | cons q rest2 =>
      rw [joinNN_cons_cons,
        pySplit2NL_append_sep _ _ hp.2.2 (goodPara_last_ne_nl hp),
        ih (by simp) hrest]

end EpubSpec

namespace EpubSpec

theorem joinNN_append : ∀ (a b : List (List Char)), a ≠ [] → b ≠ [] →
    joinNN (a ++ b) = joinNN a ++ '\n' :: '\n' :: joinNN b := by
  intro a
  induction a with
  | nil => intro b h; exact absurd rfl h
  | cons x a' ih =>
    intro b _ hb
    cases a' with
    | nil =>
      cases b with
      | nil => exact absurd rfl hb
      | cons q t => simp [joinNN_cons_cons, joinNN]
    | cons y t' =>
      have h1 : (y :: t') ++ b = y :: (t' ++ b) := rfl
      rw [List.cons_append, h1, joinNN_cons_cons]
      rw [show y :: (t' ++ b) = (y :: t') ++ b from rfl]
      rw [ih b (by simp) hb, joinNN_cons_cons]
      simp

theorem joinNN_map_join : ∀ gs : List (List (List Char)), (∀ g ∈ gs, g ≠ []) →
    joinNN (gs.map joinNN) = joinNN gs.flatten := by
  intro gs
  induction gs with
  | nil => intro _; rfl
  | cons g gs' ih =>
    intro h
    have hg := h g (List.mem_cons_self _ _)
    have hgs' := fun y hy => h y (List.mem_cons_of_mem _ hy)
    cases gs' with
    | nil => simp [joinNN]
    | cons g2 t =>
      have hg2 := h g2 (by simp)
      have hjoin_ne : (g2 :: t).flatten ≠ [] := by
        simp only [List.flatten_cons]
        intro hcontra
        rw [List.append_eq_nil] at hcontra
        exact hg2 hcontra.1
      have hmap : List.map joinNN (g2 :: t) = joinNN g2 :: List.map joinNN t := rfl
      rw [List.map_cons, hmap, joinNN_cons_cons, ← hmap, ih hgs']
      conv_rhs => rw [List.flatten_cons, joinNN_append g ((g2 :: t).flatten) hg hjoin_ne]

theorem chunkLoop_eq_map : ∀ (t : Nat) (ps cur : List (List Char)) (n : Nat),
    Pkg.chunkLoop t ps cur n = (Pkg.chunkGroups t ps cur n).map joinNN := by
  intro t ps
  induction ps with
  | nil =>
    intro cur n
    unfold Pkg.chunkLoop Pkg.chunkGroups
    by_cases h : cur.isEmpty
    · rw [if_pos h, if_pos h]
      rfl
    · rw [if_neg h, if_neg h]
      rfl
  | cons p ps' ih =>
    intro cur n
    unfold Pkg.chunkLoop Pkg.chunkGroups
    by_cases h1 : (pyStrip p).isEmpty
    · rw [if_pos h1, if_pos h1, ih]
    · rw [if_neg h1, if_neg h1]
      by_cases h2 : ¬cur.isEmpty ∧ n + (pyStrip p).length > t
      · rw [if_pos h2, if_pos h2, List.map_cons, ih]
      · rw [if_neg h2, if_neg h2, ih]

theorem chunkGroups_join : ∀ (t : Nat) (ps cur : List (List Char)) (n : Nat),
    (Pkg.chunkGroups t ps cur n).flatten = cur ++ ps.filterMap strippedPara? := by
  intro t ps
  induction ps with
  | nil =>
    intro cur n
    unfold Pkg.chunkGroups
    by_cases h : cur.isEmpty
    · rw [if_pos h]
      rw [List.isEmpty_iff] at h
      simp [h]
    · rw [if_neg h]
      simp
  | cons p ps' ih =>
    intro cur n
    unfold Pkg.chunkGroups
    by_cases h1 : (pyStrip p).isEmpty
    · rw [if_pos h1]
      rw [ih]
      simp only [List.filterMap_cons, strippedPara?, h1, if_true]
    · rw [if_neg h1]
      by_cases h2 : ¬cur.isEmpty ∧ n + (pyStrip p).length > t
      · rw [if_pos h2]
        simp only [List.flatten_cons, ih]
        simp only [List.filterMap_cons, strippedPara?, h1, if_false]
        simp
      · rw [if_neg h2]
        rw [ih]
        simp only [List.filterMap_cons, strippedPara?, h1, if_false]
        simp

theorem chunkGroups_ne_nil : ∀ (t : Nat) (ps cur : List (List Char)) (n : Nat),
    ∀ g ∈ Pkg.chunkGroups t ps cur n, g ≠ [] := by
  intro t ps
  induction ps with
  | nil =>
    intro cur n g hg
    unfold Pkg.chunkGroups at hg
    by_cases h : cur.isEmpty
    · rw [if_pos h] at hg
      simp at hg
    · rw [if_neg h] at hg
      simp only [List.mem_singleton] at hg
      subst hg
      exact fun hc => h (by rw [hc]; rfl)
  | cons p ps' ih =>
    intro cur n g hg
    unfold Pkg.chunkGroups at hg
    by_cases h1 : (pyStrip p).isEmpty
    · rw [if_pos h1] at hg
      exact ih cur n g hg
    · rw [if_neg h1] at hg
      by_cases h2 : ¬cur.isEmpty ∧ n + (pyStrip p).length > t
      · rw [if_pos h2] at hg
        rw [List.mem_cons] at hg
        rcases hg with rfl | hg
        · exact fun hc => h2.1 (by rw [hc]; rfl)
        · exact ih _ _ g hg
      · rw [if_neg h2] at hg
        exact ih _ _ g hg

end EpubSpec

namespace EpubSpec

theorem filterMap_strippedPara_good : ∀ ps : List (List Char),
    (∀ p ∈ ps, goodPara p) → ps.filterMap strippedPara? = ps := by
  intro ps
  induction ps with
  | nil => intro _; rfl
  | cons p t ih =>
    intro h
    have hp := h p (List.mem_cons_self _ _)
    have ht := fun y hy => h y (List.mem_cons_of_mem _ hy)
    rw [List.filterMap_cons]
    have hsp : strippedPara? p = some p := by
      unfold strippedPara?
      rw [hp.2.1]
      have : p.isEmpty = false := by
        cases p with
        | nil => exact absurd rfl hp.1
        | cons c t2 => rfl
      rw [this]
      simp
    rw [hsp, ih ht]

theorem foldr_max_le {l : List Nat} {B : Nat} (h : ∀ x ∈ l, x ≤ B) :
    l.foldr max 0 ≤ B := by
  induction l with
  | nil => simp
  | cons x t ih =>
    simp only [List.foldr_cons]
    have hx := h x (List.mem_cons_self _ _)
    have ht := ih (fun y hy => h y (List.mem_cons_of_mem _ hy))
    omega

theorem le_foldr_max {l : List Nat} {x : Nat} (h : x ∈ l) : x ≤ l.foldr max 0 := by
  induction l with
  | nil => simp at h
  | cons a t ih =>
    simp only [List.foldr_cons]
    rw [List.mem_cons] at h
    rcases h with rfl | h
    · omega
    · have := ih h
      omega

theorem len_le_joinNN : ∀ (ps : List (List Char)) (p : List Char), p ∈ ps →
    p.length ≤ (joinNN ps).length := by
  intro ps
  induction ps with
  | nil => intro p h; simp at h
  | cons a t ih =>
    intro p h
    rw [List.mem_cons] at h
    cases t with
    | nil =>
      rcases h with rfl | h
      · exact le_refl _
      · simp at h
    | cons q t2 =>
      rw [joinNN_cons_cons]
      simp only [List.length_append, List.length_cons]
      rcases h with rfl | h
      · omega
      · have := ih p h
        omega

theorem len_add_two_le_joinNN : ∀ (ps : List (List Char)) (p : List Char),
    2 ≤ ps.length → p ∈ ps → p.length + 2 ≤ (joinNN ps).length := by
  intro ps p h2 hmem
  cases ps with
  | nil => simp at hmem
  | cons a t =>
    cases t with
    | nil => simp at h2
    | cons q t2 =>
      rw [joinNN_cons_cons]
      simp only [List.length_append, List.length_cons]
      rw [List.mem_cons] at hmem
      rcases hmem with rfl | hmem
      · omega
      · have := len_le_joinNN _ p hmem
        omega

theorem chunkGroups_bound (t M : Nat) : ∀ (ps cur : List (List Char)) (n : Nat),
    (∀ p ∈ ps, (pyStrip p).length ≤ M) →
    (cur ≠ [] → (joinNN cur).length ≤ n ∧ (joinNN cur).length ≤ max (t + 2) M) →
    ∀ g ∈ Pkg.chunkGroups t ps cur n, (joinNN g).length ≤ max (t + 2) M := by
  intro ps
  induction ps with
  | nil =>
    intro cur n _ hcur g hg
    unfold Pkg.chunkGroups at hg
    by_cases h : cur.isEmpty
    · rw [if_pos h] at hg
      simp at hg
    · rw [if_neg h] at hg
      simp only [List.mem_singleton] at hg
      subst hg
      exact (hcur (fun hc => h (by rw [hc]; rfl))).2
  | cons p ps' ih =>
    intro cur n hm hcur g hg
    have hpM := hm p (List.mem_cons_self _ _)
    have hm' := fun y hy => hm y (List.mem_cons_of_mem _ hy)
    unfold Pkg.chunkGroups at hg
    by_cases h1 : (pyStrip p).isEmpty
    · rw [if_pos h1] at hg
      exact ih cur n hm' hcur g hg
    · rw [if_neg h1] at hg
      have hq_ne : pyStrip p ≠ [] := by
        intro hc
        rw [hc] at h1
        exact h1 rfl
      by_cases h2 : ¬cur.isEmpty ∧ n + (pyStrip p).length > t
      · rw [if_pos h2] at hg
        rw [List.mem_cons] at hg
        rcases hg with rfl | hg
        · exact (hcur (fun hc => h2.1 (by rw [hc]; rfl))).2
        · refine ih _ _ hm' ?_ g hg
          intro _
          constructor
          · exact le_refl _
          · have : (joinNN [pyStrip p]).length = (pyStrip p).length := rfl
            rw [this]
            omega
      · rw [if_neg h2] at hg
        refine ih _ _ hm' ?_ g hg
        intro _
        by_cases hcnil : cur = []
        · subst hcnil
          simp only [List.nil_append]
          have hq : joinNN [pyStrip p] = pyStrip p := rfl
          rw [hq]
          constructor
          · omega
          · omega
        · have hne2 : ¬cur.isEmpty := by
            intro hce
            exact hcnil (List.isEmpty_iff.mp hce)
          have hle : n + (pyStrip p).length ≤ t := by
            by_contra hgt
            exact h2 ⟨hne2, by omega⟩
          rw [joinNN_append cur [pyStrip p] hcnil (by simp)]
          have hq : joinNN [pyStrip p] = pyStrip p := rfl
          rw [hq]
          simp only [List.length_append, List.length_cons]
          obtain ⟨ha, hb⟩ := hcur hcnil
          constructor
          · omega
          · omega
end EpubSpec

namespace EpubSpec

theorem hasNN_of_no_nl : ∀ {l : List Char}, (∀ c ∈ l, c ≠ '\n') → hasNN l = false := by
  intro l
  induction l with
  | nil => intro _; rfl
  | cons a t ih =>
    intro h
    cases t with
    | nil =>
      conv_lhs => rw [hasNN.eq_def]
      split
      · rename_i heq
        exact absurd heq (by simp)
      · rename_i heq
        injection heq with h1 h2
        subst h2
        rfl
      · rename_i heq
        exact absurd heq (by simp)
    | cons b t2 =>
      rw [hasNN_cons_cons]
      rw [if_neg (by rintro ⟨h1, _⟩; exact h a (List.mem_cons_self _ _) h1)]
      exact ih (fun c hc => h c (List.mem_cons_of_mem _ hc))

theorem pyStrip_replicate {c : Char} (hw : pyWs c = false) (n : Nat) :
    pyStrip (List.replicate n c) = List.replicate n c := by
  have hh : ∀ x, (List.replicate n c).head? = some x → pyWs x = false := by
    intro x hx
    cases n with
    | zero => simp at hx
    | succ m =>
      rw [List.replicate_succ, List.head?_cons] at hx
      simp only [Option.some.injEq] at hx
      subst hx
      exact hw
  refine pyStrip_eq_self_of_ends hh (fun x hx => hh x ?_)
  rwa [← List.head?_reverse, List.reverse_replicate] at hx

theorem goodPara_replicate {n : Nat} {c : Char} (hn : n ≠ 0) (hw : pyWs c = false)
    (hnl : c ≠ '\n') : goodPara (List.replicate n c) := by
  refine ⟨?_, pyStrip_replicate hw n, hasNN_of_no_nl ?_⟩
  · intro h
    have := congrArg List.length h
    simp at this
    exact hn this
  · intro x hx
    rw [List.eq_of_mem_replicate hx]
    exact hnl

theorem targetOf_le {L num : Nat} (h2 : 2 ≤ num) : Pkg.ceilDiv L num ≤ L / 2 + 1 := by
  unfold Pkg.ceilDiv
  have h0 : 0 < num := by omega
  have ha : (L + num - 1) / num ≤ (L + num) / num := Nat.div_le_div_right (by omega)
  have hb : (L + num) / num = L / num + 1 := Nat.add_div_right L h0
  have hc : L / num ≤ L / 2 := Nat.div_le_div_left h2 (by omega)
  omega

theorem split_and_save_text_eq (text : List Char) :
    Pkg.split_and_save_text text =
      if Pkg.ceilDiv text.length Pkg.CHUNK_SIZE ≤ 1 then [text]
      else Pkg.chunkLoop (Pkg.ceilDiv text.length (Pkg.ceilDiv text.length Pkg.CHUNK_SIZE))
        (pySplit2NL text) [] 0 := rfl

/-- C3: Chunk Splitter round-trip for well-formed paragraph sequences.  For
every sequence of paragraphs that are nonempty, already stripped, and free of
the blank-line separator, joining the chunk bodies produced by
`split_and_save_text` on their separator-joined text reproduces that text
exactly.  (The unconditional claim fails: each paragraph is `strip()`ped on
output, so unstripped paragraphs are not reproduced.) -/
theorem C3_chunk_round_trip (ps : List (List Char)) (h : ∀ p ∈ ps, goodPara p) :
    joinNN (Pkg.split_and_save_text (joinNN ps)) = joinNN ps := by
  rw [split_and_save_text_eq]
  by_cases hn : Pkg.ceilDiv (joinNN ps).length Pkg.CHUNK_SIZE ≤ 1
  · rw [if_pos hn]
    rfl
  · rw [if_neg hn]
    have hps : ps ≠ [] := by
      intro hnil
      subst hnil
      exact hn (by norm_num [joinNN, Pkg.ceilDiv, Pkg.CHUNK_SIZE])
    rw [pySplit2NL_joinNN ps hps h, chunkLoop_eq_map,
        joinNN_map_join _ (chunkGroups_ne_nil _ _ _ _), chunkGroups_join,
        List.nil_append, filterMap_strippedPara_good ps h]

end EpubSpec

namespace EpubSpec

theorem replC3_cons : List.replicate 15001 'a' = 'a' :: List.replicate 15000 'a' := by
  rw [show (15001 : Nat) = 15000 + 1 from rfl, List.replicate_succ]

theorem pyStrip_repl_space :
    pyStrip (List.replicate 15001 'a' ++ [' ']) = List.replicate 15001 'a' := by
  unfold pyStrip
  rw [dropWhile_eq_self_of_head (p := pyWs) (l := List.replicate 15001 'a' ++ [' ']) ?hh]
  case hh =>
    intro x hx
    rw [replC3_cons] at hx
    simp only [List.cons_append, List.head?_cons, Option.some.injEq] at hx
    subst hx
    rfl
  have hrev : (List.replicate 15001 'a' ++ [' ']).reverse = ' ' :: List.replicate 15001 'a' := by
    rw [List.reverse_append, List.reverse_replicate]
    rfl
  rw [hrev, List.dropWhile_cons]
  rw [show pyWs ' ' = true from rfl]
  simp only [if_true]
  rw [dropWhile_eq_self_of_head (p := pyWs) (l := List.replicate 15001 'a') ?hh2]
  case hh2 =>
    intro x hx
    rw [replC3_cons, List.head?_cons] at hx
    simp only [Option.some.injEq] at hx
    subst hx
    rfl
  exact List.reverse_replicate _ _

theorem hasNN_repl_space : hasNN (List.replicate 15001 'a' ++ [' ']) = false := by
  apply hasNN_of_no_nl
  intro c hc
  rw [List.mem_append] at hc
  rcases hc with hc | hc
  · rw [List.eq_of_mem_replicate hc]
    decide
  · rw [List.mem_singleton] at hc
    subst hc
    decide

theorem pySplit2NL_exC3 :
    pySplit2NL exC3 = [List.replicate 15001 'a' ++ [' '], ['b']] := by
  have hassoc : exC3 = (List.replicate 15001 'a' ++ [' ']) ++ '\n' :: '\n' :: ['b'] := by
    unfold exC3
    conv_rhs => rw [List.append_assoc]
    rfl
  rw [hassoc, pySplit2NL_append_sep _ _ hasNN_repl_space ?hl]
  case hl =>
    intro c hc
    rw [List.getLast?_concat] at hc
    simp only [Option.some.injEq] at hc
    subst hc
    decide
  rw [pySplit2NL_noNN (by decide)]

/-- A normalized text whose first paragraph carries a trailing space: the
Chunk Splitter strips it, so rejoining the chunk bodies loses one character
and the round trip fails. -/
theorem C3_strip_counterexample :
    joinNN (Pkg.split_and_save_text exC3) ≠ exC3 := by
  have hlen : exC3.length = 15005 := by
    unfold exC3
    rw [List.length_append, List.length_replicate]
    rfl
  have hnum : Pkg.ceilDiv 15005 Pkg.CHUNK_SIZE = 2 := by decide
  rw [split_and_save_text_eq, hlen, hnum]
  rw [if_neg (by norm_num)]
  rw [chunkLoop_eq_map, joinNN_map_join _ (chunkGroups_ne_nil _ _ _ _), chunkGroups_join,
      List.nil_append, pySplit2NL_exC3]
  have hfm : ([List.replicate 15001 'a' ++ [' '], ['b']]).filterMap strippedPara?
      = [List.replicate 15001 'a', ['b']] := by
    have hie : (List.replicate 15001 'a').isEmpty = false := by
      rw [replC3_cons]
      rfl
    simp only [List.filterMap_cons, strippedPara?, pyStrip_repl_space, hie]
    rfl
  rw [hfm]
  intro heq
  have hL := congrArg List.length heq
  rw [hlen, joinNN_cons_cons] at hL
  have hsingle : joinNN [['b']] = ['b'] := rfl
  rw [hsingle] at hL
  simp only [List.length_append, List.length_cons, List.length_replicate,
    List.length_nil] at hL
  omega

end EpubSpec

namespace EpubSpec

/-- C4: Chunk size bound.  (a) A chapter text of length at most
`CHUNK_SIZE * 1.2 = 18000` never triggers splitting.  (b) A separator-joined
sequence of at least two well-formed paragraphs whose total length exceeds
18000 produces at least two chunks.  (c) Every produced chunk is bounded by
the recomputed target size plus the 2-character separator overshoot, or by
the longest stripped paragraph when a single paragraph exceeds the target.
(The unconditional at-least-2-chunks claim fails for a single oversized
paragraph.) -/
theorem C4_chunk_size_bound :
    (∀ (f : Bool) (text : List Char), text.length ≤ 18000 →
        Pkg.split_trigger f text = false) ∧
    (∀ ps : List (List Char), (∀ p ∈ ps, goodPara p) → 2 ≤ ps.length →
        18000 < (joinNN ps).length →
        2 ≤ (Pkg.split_and_save_text (joinNN ps)).length) ∧
    (∀ (text c : List Char), c ∈ Pkg.split_and_save_text text →
        c.length ≤ max (Pkg.targetOf text + 2) (maxStrippedParaLen text)) := by
  refine ⟨?_, ?_, ?_⟩
  · intro f text h
    unfold Pkg.split_trigger
    have hd : decide (text.length > 18000) = false := by
      simp only [decide_eq_false_iff_not]
      omega
    rw [hd, Bool.and_false]
  · intro ps hg h2 hL
    have hpsne : ps ≠ [] := by
      intro h0
      subst h0
      simp at h2
    rw [split_and_save_text_eq]
    have hnum : ¬(Pkg.ceilDiv (joinNN ps).length Pkg.CHUNK_SIZE ≤ 1) := by
      unfold Pkg.ceilDiv Pkg.CHUNK_SIZE
      omega
    rw [if_neg hnum, pySplit2NL_joinNN ps hpsne hg, chunkLoop_eq_map, List.length_map]
    by_contra hlt
    push_neg at hlt
    generalize hT : Pkg.ceilDiv (joinNN ps).length
      (Pkg.ceilDiv (joinNN ps).length Pkg.CHUNK_SIZE) = T at hlt
    have hflat := chunkGroups_join T ps [] 0
    rw [List.nil_append, filterMap_strippedPara_good ps hg] at hflat
    cases hgroups : Pkg.chunkGroups T ps [] 0 with
    | nil =>
      rw [hgroups] at hflat
      have := congrArg List.length hflat
      simp at this
      omega
    | cons g rest =>
      cases rest with
      | cons g2 r2 =>
        rw [hgroups] at hlt
        simp at hlt
        omega
      | nil =>
        rw [hgroups] at hflat
        have hgps : g = ps := by simpa using hflat
        have hgmem : g ∈ Pkg.chunkGroups T ps [] 0 := by
          rw [hgroups]
          exact List.mem_singleton.mpr rfl
        have hm : ∀ p ∈ ps, (pyStrip p).length ≤ maxStrippedParaLen (joinNN ps) := by
          intro p hp
          unfold maxStrippedParaLen
          apply le_foldr_max
          rw [pySplit2NL_joinNN ps hpsne hg]
          exact List.mem_map_of_mem _ hp
        have hbound := chunkGroups_bound T (maxStrippedParaLen (joinNN ps)) ps [] 0 hm
          (fun hc2 => absurd rfl hc2) g hgmem
        rw [hgps] at hbound
        have hM : maxStrippedParaLen (joinNN ps) ≤ (joinNN ps).length - 2 := by
          unfold maxStrippedParaLen
          apply foldr_max_le
          intro x hx
          rw [pySplit2NL_joinNN ps hpsne hg, List.mem_map] at hx
          obtain ⟨p, hp, rfl⟩ := hx
          rw [(hg p hp).2.1]
          have := len_add_two_le_joinNN ps p h2 hp
          omega
        have hT2 : T ≤ (joinNN ps).length / 2 + 1 := by
          rw [← hT]
          apply targetOf_le
          unfold Pkg.ceilDiv Pkg.CHUNK_SIZE
          omega
        omega
  · intro text c hc
    rw [split_and_save_text_eq] at hc
    by_cases hn : Pkg.ceilDiv text.length Pkg.CHUNK_SIZE ≤ 1
    · rw [if_pos hn] at hc
      rw [List.mem_singleton] at hc
      subst hc
      by_cases hL0 : c.length = 0
      · omega
      · have hnum1 : Pkg.ceilDiv c.length Pkg.CHUNK_SIZE = 1 := by
          unfold Pkg.ceilDiv Pkg.CHUNK_SIZE at hn ⊢
          omega
        have ht : Pkg.targetOf c = c.length := by
          unfold Pkg.targetOf
          rw [hnum1]
          unfold Pkg.ceilDiv
          omega
        rw [ht]
        omega
    · rw [if_neg hn, chunkLoop_eq_map, List.mem_map] at hc
      obtain ⟨g, hgmem, rfl⟩ := hc
      have hTt : Pkg.ceilDiv text.length (Pkg.ceilDiv text.length Pkg.CHUNK_SIZE)
          = Pkg.targetOf text := rfl
      rw [hTt] at hgmem
      refine chunkGroups_bound (Pkg.targetOf text) (maxStrippedParaLen text) _ [] 0
        ?_ (fun hc2 => absurd rfl hc2) g hgmem
      intro p hp
      unfold maxStrippedParaLen
      exact le_foldr_max (List.mem_map_of_mem _ hp)

end EpubSpec

namespace EpubSpec

/-- Witness: two well-formed paragraphs of 15000 and 8447 characters join to
a 23449-character text, which the splitter cuts into at least two chunks. -/
theorem C4_chunk_size_bound_witness :
    (∀ p ∈ psC4, goodPara p) ∧ 2 ≤ psC4.length ∧ 18000 < (joinNN psC4).length ∧
    2 ≤ (Pkg.split_and_save_text (joinNN psC4)).length := by
  have h1 : ∀ p ∈ psC4, goodPara p := by
    intro p hp
    unfold psC4 at hp
    rw [List.mem_cons, List.mem_singleton] at hp
    rcases hp with rfl | rfl
    · exact goodPara_replicate (by norm_num) (by decide) (by decide)
    · exact goodPara_replicate (by norm_num) (by decide) (by decide)
  have hps2 : psC4.length = 2 := rfl
  have h2 : 2 ≤ psC4.length := by omega
  have h3 : 18000 < (joinNN psC4).length := by
    have hj : joinNN psC4
        = List.replicate 15000 'a' ++ '\n' :: '\n' :: List.replicate 8447 'b' := rfl
    rw [hj, List.length_append, List.length_replicate, List.length_cons,
        List.length_cons, List.length_replicate]
    norm_num
  exact ⟨h1, h2, h3, C4_chunk_size_bound.2.1 psC4 h1 h2 h3⟩

/-- A single 18001-character paragraph exceeds the split threshold and
triggers splitting, yet yields exactly one chunk: the greedy loop never cuts
inside a paragraph. -/
theorem C4_single_paragraph_counterexample :
    18000 < exC4.length ∧ Pkg.split_trigger true exC4 = true ∧
    (Pkg.split_and_save_text exC4).length = 1 := by
  have hlen : exC4.length = 18001 := by
    unfold exC4
    rw [List.length_replicate]
  have hcons : exC4 = 'a' :: List.replicate 18000 'a' := by
    unfold exC4
    rw [show (18001 : Nat) = 18000 + 1 from rfl, List.replicate_succ]
  have hne : exC4.isEmpty = false := by
    rw [hcons]
    rfl
  refine ⟨by omega, ?_, ?_⟩
  · unfold Pkg.split_trigger
    rw [hlen]
    decide
  · rw [split_and_save_text_eq, hlen]
    have hnum : ¬(Pkg.ceilDiv 18001 Pkg.CHUNK_SIZE ≤ 1) := by decide
    rw [if_neg hnum, chunkLoop_eq_map, List.length_map]
    have hsplit : pySplit2NL exC4 = [exC4] := by
      apply pySplit2NL_noNN
      apply hasNN_of_no_nl
      intro x hx
      unfold exC4 at hx
      rw [List.eq_of_mem_replicate hx]
      decide
    rw [hsplit]
    have hstrip : pyStrip exC4 = exC4 := pyStrip_replicate (by decide) 18001
    unfold Pkg.chunkGroups
    rw [hstrip]
    rw [if_neg (show ¬(exC4.isEmpty = true) by simp [hne])]
    rw [if_neg (by simp)]
    unfold Pkg.chunkGroups
    rw [if_neg (by simp)]
    rfl

end EpubSpec

namespace EpubSpec

/-- Witness: the round trip holds on the two-paragraph text `"a\n\nb"`. -/
theorem C3_chunk_round_trip_witness :
    (∀ p ∈ [['a'], ['b']], goodPara p) ∧
    joinNN (Pkg.split_and_save_text (joinNN [['a'], ['b']])) = joinNN [['a'], ['b']] :=
  ⟨by decide, C3_chunk_round_trip [['a'], ['b']] (by decide)⟩

end EpubSpec
